import Mathlib

/-!
Verification of the DEVO repository (CSV → iCSV enrichment and iCSV
validation) against its natural-language specification.

The Python source (src/enrichment.py, src/validation.py) is shallowly
embedded below.  Python strings are modelled as lists of characters
(`Str`); Python dicts as insertion-ordered association lists; the
optional `dateutil` flexible date parser, absent from the repository
sources, is kept as an explicit parameter of the functions that consult
it.  Machine-level concerns (IEEE floats for min/max values, time zones)
are modelled exactly where a claim depends on them and noted where they
are simplified.
-/

namespace DEVO

/-- Python strings are modelled as lists of characters. -/
abbrev Str := List Char

/-- The ASCII whitespace characters stripped by Python `str.strip()`. -/
def pyIsSpace (c : Char) : Bool :=
  c = ' ' || c = '\t' || c = '\n' || c = '\r' || c = '\x0b' || c = '\x0c'

/-- Left strip of whitespace, as in Python `str.lstrip()`. -/
def pyLstrip (s : Str) : Str := s.dropWhile pyIsSpace

/-- Right strip of whitespace, as in Python `str.rstrip()`. -/
def pyRstrip (s : Str) : Str := (s.reverse.dropWhile pyIsSpace).reverse

/-- Python `str.strip()`: drop whitespace from both ends. -/
def pyStrip (s : Str) : Str := pyRstrip (pyLstrip s)

/-- A non-empty all-digit string (the `\d+` part of the source regexes). -/
def digitsNonempty (s : Str) : Bool := !s.isEmpty && s.all Char.isDigit

/-- The source regex `INT_RE = ^-?\d+$` from src/enrichment.py. -/
def INT_RE (s : Str) : Bool :=
  if s.head? = some '-' then digitsNonempty (s.drop 1) else digitsNonempty s

/-- The string behind the optional leading minus sign. -/
def floatBody (s : Str) : Str :=
  if s.head? = some '-' then s.drop 1 else s

/-- The source regex `FLOAT_RE = ^-?\d+\.\d+$` from src/enrichment.py:
a non-empty digit run, a dot, a non-empty digit run, with an optional
leading minus sign. -/
def FLOAT_RE (s : Str) : Bool :=
  if ((floatBody s).span (fun c => c != '.')).2.head? = some '.' then
    digitsNonempty ((floatBody s).span (fun c => c != '.')).1
      && digitsNonempty (((floatBody s).span (fun c => c != '.')).2.drop 1)
  else false

/-- The fixed missing-value placeholder set `ENRICHMENT_COMMON_MISSING`
from src/enrichment.py (case-sensitive membership). -/
def ENRICHMENT_COMMON_MISSING : List Str :=
  (["", "NA", "N/A", "na", "n/a", "NULL", "null", "nan", "NaN",
    "-999", "-999.0", "-999.000000"] : List String).map String.toList

/-- A parsed calendar timestamp, standing in for a Python `datetime`
value.  Time-zone offsets are dropped (they matter to none of the
verified claims). -/
structure PyDateTime where
  year : Nat
  month : Nat
  day : Nat
  hour : Nat
  minute : Nat
  second : Nat
deriving DecidableEq, Repr

/-- Consume greedily at most `maxN` leading digits (at least one),
returning their value and the rest of the input. -/
def takeDigits (maxN : Nat) (s : Str) : Option (Nat × Str) :=
  let ds := (s.take maxN).takeWhile Char.isDigit
  if ds.isEmpty then none
  else some (ds.foldl (fun acc c => acc * 10 + (c.toNat - '0'.toNat)) 0, s.drop ds.length)

/-- Accept a strptime `%z` offset: `Z`, or a sign followed by `HH[:]MM`. -/
def takeTzOffset (s : Str) : Option Str :=
  match s with
  | 'Z' :: rest => some rest
  | c :: rest =>
    if c = '+' || c = '-' then
      match takeDigits 2 rest with
      | some (_, r1) =>
        let r1' := match r1 with | ':' :: r => r | _ => r1
        match takeDigits 2 r1' with
        | some (_, r2) => some r2
        | none => none
      | none => none
    else none
  | [] => none

/-- Modelled from the spec: Python `datetime.strptime` restricted to the
directives appearing in the source's fixed format list (`%Y %m %d %H %M
%S %z`).  Each numeric directive consumes a non-empty run of digits
(greedily, up to the directive's width) and is range-checked; literal
format characters must match exactly; the whole input must be consumed.
Defaults follow Python (1900-01-01 00:00:00). -/
def strptimeGo : Str → Str → PyDateTime → Option PyDateTime
  | [], s, acc => if s.isEmpty then some acc else none
  | c :: fr, s, acc =>
    if c = '%' then
      match fr with
      | [] => none
      | d :: fr2 =>
        if d = 'Y' then
          match takeDigits 4 s with
          | some (v, rest) => strptimeGo fr2 rest { acc with year := v }
          | none => none
        else if d = 'm' then
          match takeDigits 2 s with
          | some (v, rest) =>
            if 1 ≤ v ∧ v ≤ 12 then strptimeGo fr2 rest { acc with month := v } else none
          | none => none
        else if d = 'd' then
          match takeDigits 2 s with
          | some (v, rest) =>
            if 1 ≤ v ∧ v ≤ 31 then strptimeGo fr2 rest { acc with day := v } else none
          | none => none
        else if d = 'H' then
          match takeDigits 2 s with
          | some (v, rest) =>
            if v ≤ 23 then strptimeGo fr2 rest { acc with hour := v } else none
          | none => none
        else if d = 'M' then
          match takeDigits 2 s with
          | some (v, rest) =>
            if v ≤ 59 then strptimeGo fr2 rest { acc with minute := v } else none
          | none => none
        else if d = 'S' then
          match takeDigits 2 s with
          | some (v, rest) =>
            if v ≤ 59 then strptimeGo fr2 rest { acc with second := v } else none
          | none => none
        else if d = 'z' then
          match takeTzOffset s with
          | some rest => strptimeGo fr2 rest acc
          | none => none
        else none
    else
      match s with
      | c2 :: sr => if c = c2 then strptimeGo fr sr acc else none
      | [] => none

/-- Python `datetime.strptime(s, fmt)` as a total fallible parser. -/
def strptime (fmt : Str) (s : Str) : Option PyDateTime :=
  strptimeGo fmt s ⟨1900, 1, 1, 0, 0, 0⟩

/-- Consume exactly `n` digits, returning their value. -/
def exactDigits (n : Nat) (s : Str) : Option (Nat × Str) :=
  let ds := s.take n
  if ds.length = n ∧ ds.all Char.isDigit then
    some (ds.foldl (fun acc c => acc * 10 + (c.toNat - '0'.toNat)) 0, s.drop n)
  else none

/-- Modelled from the spec: Python `datetime.fromisoformat` (ISO-8601
parse): `YYYY-MM-DD`, optionally followed by a one-character separator
and `HH:MM[:SS]`, all fields zero-padded and range-checked. -/
def fromisoformat (s : Str) : Option PyDateTime :=
  match exactDigits 4 s with
  | none => none
  | some (y, r1) =>
    match r1 with
    | '-' :: r2 =>
      match exactDigits 2 r2 with
      | none => none
      | some (mo, r3) =>
        if ¬ (1 ≤ mo ∧ mo ≤ 12) then none
        else match r3 with
        | '-' :: r4 =>
          match exactDigits 2 r4 with
          | none => none
          | some (d, r5) =>
            if ¬ (1 ≤ d ∧ d ≤ 31) then none
            else match r5 with
            | [] => some ⟨y, mo, d, 0, 0, 0⟩
            | _ :: r6 =>
              match exactDigits 2 r6 with
              | none => none
              | some (h, r7) =>
                if ¬ (h ≤ 23) then none
                else match r7 with
                | ':' :: r8 =>
                  match exactDigits 2 r8 with
                  | none => none
                  | some (mi, r9) =>
                    if ¬ (mi ≤ 59) then none
                    else match r9 with
                    | [] => some ⟨y, mo, d, h, mi, 0⟩
                    | ':' :: r10 =>
                      match exactDigits 2 r10 with
                      | some (sec, []) =>
                        if sec ≤ 59 then some ⟨y, mo, d, h, mi, sec⟩ else none
                      | _ => none
                    | _ => none
                | _ => none
        | _ => none
    | _ => none

/-- The fixed ordered list of explicit format strings tried by
`try_parse_datetime` in src/enrichment.py. -/
def TRY_PARSE_FMTS : List Str :=
  (["%Y-%m-%d %H:%M:%S", "%Y-%m-%d %H:%M", "%Y-%m-%d", "%d.%m.%Y",
    "%d/%m/%Y", "%m/%d/%Y", "%Y/%m/%d", "%d-%m-%Y", "%Y%m%dT%H%M%S",
    "%Y-%m-%dT%H:%M:%S%z", "%Y-%m-%dT%H:%M:%S"] : List String).map String.toList

/-- The type of the optional flexible natural-language date parser
(`dateutil.parser.parse` in the source, an optional dependency absent
from src/): `none` models an unavailable parser, `some p` an available
one returning a timestamp on success. -/
abbrev FlexParser := Option (Str → Option PyDateTime)

/-- The ISO-plus-formats fallback cascade of `try_parse_datetime`
(everything after the optional dateutil attempt). -/
def fallbackCascade (s : Str) : Bool :=
  (fromisoformat s).isSome || TRY_PARSE_FMTS.any (fun f => (strptime f s).isSome)

/-- `try_parse_datetime` from src/enrichment.py: empty check, strip,
digit pre-check, then the flexible parser when available, then the
ISO/format fallback cascade. -/
def try_parse_datetime (dp : FlexParser) (s : Str) : Bool :=
  if s.isEmpty then false
  else
    let s := pyStrip s
    if !(s.any Char.isDigit) then false
    else
      match dp with
      | some p => if (p s).isSome then true else fallbackCascade s
      | none => fallbackCascade s

/-- `try_parse_datetime` with the digit pre-check removed, used to state
the claim that the pre-check is a pure optimization. -/
def try_parse_datetime_nocheck (dp : FlexParser) (s : Str) : Bool :=
  if s.isEmpty then false
  else
    let s := pyStrip s
    match dp with
    | some p => if (p s).isSome then true else fallbackCascade s
    | none => fallbackCascade s

/-- `infer_column_type` from src/enrichment.py: prune
whitespace-stripped values through the missing set, then scan the pruned
values once, conjunctively updating the three hypotheses, and pick the
first surviving type in priority order. -/
def infer_column_type (dp : FlexParser) (values : List Str) (missing_values : List Str) : Str :=
  let pruned := (values.map pyStrip).filter (fun v => !(missing_values.contains v))
  if pruned.isEmpty then "string".toList
  else
    let flags := pruned.foldl
      (fun (f : Bool × Bool × Bool) v =>
        (f.1 && INT_RE v,
         f.2.1 && (INT_RE v || FLOAT_RE v),
         f.2.2 && try_parse_datetime dp v))
      (true, true, true)
    if flags.1 then "integer".toList
    else if flags.2.1 then "number".toList
    else if flags.2.2 then "datetime".toList
    else "string".toList

/-- Decimal rendering of a natural number (Python `str(n)`). -/
def natToStr (n : Nat) : Str := (toString n).toList

/-- Decimal rendering of an integer (Python `str(z)`). -/
def intToStr (z : Int) : Str := (toString z).toList

/-- Modelled from the spec: Python `int(s)` restricted to the plain
decimal integer literals the enrichment pipeline feeds it (optional
surrounding whitespace, optional sign, non-empty digit run). -/
def pyInt (s : Str) : Option Int :=
  let t := pyStrip s
  let sb : Int × Str :=
    if t.head? = some '-' then (-1, t.drop 1)
    else if t.head? = some '+' then (1, t.drop 1)
    else (1, t)
  if digitsNonempty sb.2 then
    some (sb.1 * (sb.2.foldl (fun acc c => acc * 10 + (c.toNat - '0'.toNat)) (0 : Nat) : Nat))
  else none

/-- Modelled from the spec: Python `float(s)` restricted to plain
decimal literals (optional whitespace and sign, `digits`,
`digits.digits`, `digits.` or `.digits`), returned as an exact rational
rather than an IEEE double; only the success/failure behaviour and the
ordering of the parsed values matter to the verified claims. -/
def pyFloat (s : Str) : Option ℚ :=
  let t := pyStrip s
  let sb : ℚ × Str :=
    if t.head? = some '-' then (-1, t.drop 1)
    else if t.head? = some '+' then (1, t.drop 1)
    else (1, t)
  let ip := (sb.2.span Char.isDigit).1
  let rest := (sb.2.span Char.isDigit).2
  let ipVal : Nat := ip.foldl (fun acc c => acc * 10 + (c.toNat - '0'.toNat)) 0
  let fp := rest.drop 1
  if rest.isEmpty then (if ip.isEmpty then none else some (sb.1 * (ipVal : ℚ)))
  else if rest.head? = some '.' ∧ fp.all Char.isDigit = true
      ∧ ¬ (ip.isEmpty = true ∧ fp.isEmpty = true) then
    some (sb.1 * ((ipVal : ℚ)
      + ((fp.foldl (fun acc c => acc * 10 + (c.toNat - '0'.toNat)) 0 : Nat) : ℚ)
        / ((10 : ℚ) ^ fp.length)))
  else none

/-- Number of times `p` divides `n`. -/
def powCount (p : Nat) (n : Nat) : Nat :=
  if h : 2 ≤ p ∧ 0 < n ∧ n % p = 0 then powCount p (n / p) + 1 else 0
termination_by n
decreasing_by exact Nat.div_lt_self h.2.1 h.1

/-- Decimal rendering of a rational whose denominator is of the form
`2^a * 5^b`, following Python float printing for the simple values the
pipeline produces (at least one fractional digit, trailing zeros
dropped); other denominators (unreachable from `pyFloat` results) render
as `num/den`. -/
def ratToStr (q : ℚ) : Str :=
  let d := q.den
  let k := max (powCount 2 d) (powCount 5 d)
  if d * (10 ^ k / d) = 10 ^ k then
    let scaled : Nat := q.num.natAbs * (10 ^ k / d)
    let digits := natToStr scaled
    let digits := List.replicate (k + 1 - digits.length) '0' ++ digits
    let ip := digits.take (digits.length - k)
    let fp := digits.drop (digits.length - k)
    let fp := (fp.reverse.dropWhile (· = '0')).reverse
    let fp := if fp.isEmpty then ['0'] else fp
    (if q.num < 0 then ['-'] else []) ++ ip ++ ['.'] ++ fp
  else
    intToStr q.num ++ ['/'] ++ natToStr d

/-- A value stored in a column profile min/max slot: Python keeps an
`int`, a `float`, or an ISO-formatted `str` there. -/
inductive CellVal where
  | int (z : Int)
  | num (q : ℚ)
  | str (s : Str)
deriving DecidableEq, Repr

/-- Python `str()` of a stored min/max value. -/
def CellVal.render : CellVal → Str
  | .int z => intToStr z
  | .num q => ratToStr q
  | .str s => s

/-- Cast every element, failing if any single cast fails (the
`[int(x) for x in pruned]` comprehension inside the `try` block). -/
def castAll (f : Str → Option α) : List Str → Option (List α)
  | [] => some []
  | x :: xs =>
    match f x, castAll f xs with
    | some y, some ys => some (y :: ys)
    | _, _ => none

/-- `compute_numeric_minmax` from src/enrichment.py: cast every pruned
value to the inferred numeric kind; any cast failure makes both bounds
absent instead of raising. -/
def compute_numeric_minmax (pruned : List Str) (as_type : Str) : Option CellVal × Option CellVal :=
  if pruned.isEmpty then (none, none)
  else if as_type = "integer".toList then
    match castAll pyInt pruned with
    | some nums =>
      match nums with
      | [] => (none, none)
      | n :: rest => (some (.int (rest.foldl min n)), some (.int (rest.foldl max n)))
    | none => (none, none)
  else
    match castAll pyFloat pruned with
    | some nums =>
      match nums with
      | [] => (none, none)
      | n :: rest => (some (.num (rest.foldl min n)), some (.num (rest.foldl max n)))
    | none => (none, none)

/-- Chronological sort key of a timestamp. -/
def PyDateTime.key (d : PyDateTime) : Nat :=
  ((((d.year * 13 + d.month) * 32 + d.day) * 24 + d.hour) * 60 + d.minute) * 60 + d.second

/-- Zero-padded decimal rendering. -/
def padNum (w : Nat) (n : Nat) : Str :=
  let s := natToStr n
  List.replicate (w - s.length) '0' ++ s

/-- Python `datetime.isoformat()` for whole-second timestamps. -/
def PyDateTime.isoformat (d : PyDateTime) : Str :=
  padNum 4 d.year ++ ['-'] ++ padNum 2 d.month ++ ['-'] ++ padNum 2 d.day ++ ['T'] ++
    padNum 2 d.hour ++ [':'] ++ padNum 2 d.minute ++ [':'] ++ padNum 2 d.second

/-- The shorter explicit format list used by `compute_datetime_minmax`
in src/enrichment.py (it stops at `%Y%m%dT%H%M%S`, omitting the last
two formats of the `try_parse_datetime` list). -/
def DT_MINMAX_FMTS : List Str :=
  (["%Y-%m-%d %H:%M:%S", "%Y-%m-%d %H:%M", "%Y-%m-%d", "%d.%m.%Y",
    "%d/%m/%Y", "%m/%d/%Y", "%Y/%m/%d", "%d-%m-%Y", "%Y%m%dT%H%M%S"] : List String).map String.toList

/-- The per-value parse inside `compute_datetime_minmax`: the flexible
parser when available, else ISO, else the first matching explicit
format; unparsable values are skipped by the caller. -/
def datetimeMinmaxParse (dp : FlexParser) (v : Str) : Option PyDateTime :=
  match dp with
  | some p => p v
  | none =>
    match fromisoformat v with
    | some dt => some dt
    | none => DT_MINMAX_FMTS.findSome? (fun f => strptime f v)

/-- `compute_datetime_minmax` from src/enrichment.py: best-effort parse
of every pruned value, then earliest/latest parsed instant rendered back
to ISO-8601 (first value wins ties, matching Python min/max). -/
def compute_datetime_minmax (dp : FlexParser) (pruned : List Str) : Option CellVal × Option CellVal :=
  let parsed := pruned.filterMap (datetimeMinmaxParse dp)
  match parsed with
  | [] => (none, none)
  | d :: rest =>
    let mn := rest.foldl (fun acc x => if x.key < acc.key then x else acc) d
    let mx := rest.foldl (fun acc x => if x.key > acc.key then x else acc) d
    (some (.str mn.isoformat), some (.str mx.isoformat))

/-- `detect_geometry_hint` from src/enrichment.py: case-insensitive
scan; a column named `geometry` (first occurrence) wins outright;
otherwise a latitude/longitude pair (last occurrences) with the WGS84
SRID; otherwise nothing. -/
def detect_geometry_hint (header : List Str) : Option Str × Option Str :=
  let lower := header.map (fun h => h.map Char.toLower)
  if lower.contains "geometry".toList then
    let idx := lower.indexOf "geometry".toList
    (some ("column:".toList ++ header.getD idx []), none)
  else
    let st := lower.enum.foldl
      (fun (st : Option Nat × Option Nat) p =>
        let st1 := if p.2 = "lat".toList ∨ p.2 = "latitude".toList then (some p.1, st.2) else st
        if p.2 = "lon".toList ∨ p.2 = "lng".toList ∨ p.2 = "longitude".toList then (st1.1, some p.1) else st1)
      (none, none)
    match st with
    | (some li, some oi) =>
      (some ("column:".toList ++ header.getD li [] ++ [','] ++ header.getD oi []), some "EPSG:4326".toList)
    | _ => (none, none)

/-- Insertion-ordered dict update (Python dict assignment: existing keys
keep their position, new keys are appended). -/
def dictInsert (k : Str) (v : α) : List (Str × α) → List (Str × α)
  | [] => [(k, v)]
  | (k', v') :: rest => if k' = k then (k, v) :: rest else (k', v') :: dictInsert k v rest

/-- Insertion-ordered occurrence counting (`placeholder_counts` dict). -/
def dictIncr (k : Str) : List (Str × Nat) → List (Str × Nat)
  | [] => [(k, 1)]
  | (k', c) :: rest => if k' = k then (k', c + 1) :: rest else (k', c) :: dictIncr k rest

/-- The `placeholder_counts` accumulation in `make_icsv_from_csv`: one
row-major scan over the raw cells, counting literal members of the
missing set in first-encounter order. -/
def placeholder_counts (rows : List (List Str)) : List (Str × Nat) :=
  rows.foldl
    (fun acc r => r.foldl
      (fun acc c => if ENRICHMENT_COMMON_MISSING.contains c then dictIncr c acc else acc) acc)
    []

/-- Python `max(items, key=count)` over an insertion-ordered dict:
first-encountered entry wins ties; empty dict resolves to the empty
string (the `if placeholder_counts else ""` fallback). -/
def maxCountFirst : List (Str × Nat) → Str
  | [] => []
  | (k, c) :: rest => (rest.foldl (fun best p => if p.2 > best.2 then p else best) (k, c)).1

/-- The nodata-resolution step of `make_icsv_from_csv`: the explicit
override wins; otherwise the most frequent observed missing literal
(first-encountered breaks ties); otherwise the empty string. -/
def resolve_nodata (nodata_override : Option Str) (rows : List (List Str)) : Str :=
  match nodata_override with
  | some v => v
  | none => maxCountFirst (placeholder_counts rows)

/-- Row length normalization in `make_icsv_from_csv`: pad short rows
with empty cells, truncate long rows, to the header length. -/
def normalizeRow (n : Nat) (r : List Str) : List Str :=
  if r.length < n then r ++ List.replicate (n - r.length) ([] : Str)
  else r.take n

/-- A per-column profile (`info` dict in `make_icsv_from_csv`); the
schema-only `constraints` entry is not modelled (no claim touches the
schema document). -/
structure ColInfo where
  name : Str
  type : Str
  min : Option CellVal
  max : Option CellVal
  missing_count : Nat
  description : Str
deriving DecidableEq, Repr

/-- The per-column profiling loop of `make_icsv_from_csv`: normalize the
rows, materialize column `i`, strip its cells, prune, infer the type,
compute type-dependent min/max, and count missing cells. -/
def make_col_infos (dp : FlexParser) (header : List Str) (rows : List (List Str)) : List ColInfo :=
  let rows' := rows.map (normalizeRow header.length)
  (List.range header.length).map (fun i =>
    let name := header.getD i []
    let col_values := (rows'.map (fun r => r.getD i [])).map pyStrip
    let pruned := col_values.filter
      (fun v => !(ENRICHMENT_COMMON_MISSING.contains v) && !(v == ([] : Str)))
    let inferred := infer_column_type dp col_values ENRICHMENT_COMMON_MISSING
    let mm :=
      if inferred = "integer".toList ∨ inferred = "number".toList then
        compute_numeric_minmax pruned inferred
      else if inferred = "datetime".toList then
        compute_datetime_minmax dp pruned
      else (none, none)
    let missing_count :=
      (col_values.filter (fun v => ENRICHMENT_COMMON_MISSING.contains v || v == ([] : Str))).length
    { name := name, type := inferred, min := mm.1, max := mm.2,
      missing_count := missing_count, description := [] })

/-- `build_icsv_metadata_section` from src/enrichment.py: the ordered
`key = value` metadata lines.  The UTC creation timestamp is passed in
as a parameter (it is the one nondeterministic output field); the
`nodata` line is emitted whenever the value is not `None`, which is the
behaviour under test in claim C6. -/
def build_icsv_metadata_section (field_delimiter : Str) (header : List Str) (rows_count : Nat)
    (nodata_value : Option Str) (geometry_hint : Option Str) (srid_hint : Option Str)
    (application_profile : Option Str) (creation_date : Str) : List Str :=
  ["iCSV_version = 1.0".toList]
  ++ (match application_profile with
      | some ap => if ap.isEmpty then [] else ["application_profile = ".toList ++ ap]
      | none => [])
  ++ ["field_delimiter = ".toList ++ field_delimiter]
  ++ ["rows = ".toList ++ natToStr rows_count]
  ++ ["columns = ".toList ++ natToStr header.length]
  ++ ["creation_date = ".toList ++ creation_date ++ ['Z']]
  ++ (match nodata_value with
      | some nv => ["nodata = ".toList ++ nv]
      | none => [])
  ++ (match geometry_hint with
      | some g => if g.isEmpty then [] else ["geometry = ".toList ++ g]
      | none => [])
  ++ (match srid_hint with
      | some sr => if sr.isEmpty then [] else ["srid = ".toList ++ sr]
      | none => [])
  ++ ["generator = DEVO devo.enrichment".toList]

/-- Rendering of a min/max slot in the fields block: absent renders as
the empty string. -/
def renderOptCell : Option CellVal → Str
  | none => []
  | some cv => cv.render

/-- `build_fields_section` from src/enrichment.py: the six
delimiter-joined per-column lines. -/
def build_fields_section (header : List Str) (col_infos : List ColInfo) (field_delimiter : Str) : List Str :=
  let join := fun (vals : List Str) => List.intercalate field_delimiter vals
  ["fields = ".toList ++ join header,
   "types = ".toList ++ join (col_infos.map (·.type)),
   "min = ".toList ++ join (col_infos.map (fun c => renderOptCell c.min)),
   "max = ".toList ++ join (col_infos.map (fun c => renderOptCell c.max)),
   "missing_count = ".toList ++ join (col_infos.map (fun c => natToStr c.missing_count)),
   "description = ".toList ++ join (col_infos.map (·.description))]

/-- QUOTE_MINIMAL field quoting of the csv writer: quote when the field
contains the delimiter, a quote, or a line break, doubling quotes. -/
def csvField (d : Char) (f : Str) : Str :=
  if f.contains d || f.contains '"' || f.contains '\r' || f.contains '\n' then
    '"' :: (f.foldr (fun c acc => if c = '"' then '"' :: '"' :: acc else c :: acc) []) ++ ['"']
  else f

/-- One csv-written data line. -/
def csvRow (d : Char) (r : List Str) : Str := List.intercalate [d] (r.map (csvField d))

/-- `write_icsv` from src/enrichment.py, producing the file as a list of
lines (newline terminators are left implicit): signature line, commented
METADATA block, blank line, commented FIELDS block, blank line, DATA
block holding the header row and the length-padded data rows. -/
def write_icsv_lines (header_meta_lines : List Str) (fields_meta_lines : List Str)
    (data_header : List Str) (rows : List (List Str)) (field_delimiter : Char) : List Str :=
  ["# iCSV 1.0 UTF-8".toList, "# [METADATA]".toList]
  ++ header_meta_lines.map (fun l => '#' :: ' ' :: l)
  ++ [[]]
  ++ ["# [FIELDS]".toList]
  ++ fields_meta_lines.map (fun l => '#' :: ' ' :: l)
  ++ [[]]
  ++ ["# [DATA]".toList]
  ++ [csvRow field_delimiter data_header]
  ++ rows.map (fun r =>
      csvRow field_delimiter
        (if r.length < data_header.length then
          r ++ List.replicate (data_header.length - r.length) ([] : Str)
        else r))

/-- `make_icsv_from_csv` from src/enrichment.py, after the rows have
been loaded and the output delimiter resolved (file IO and the
delimiter detection are modelled separately): resolve the nodata token,
profile the columns, detect the geometry hint, and assemble the iCSV
document lines. -/
def make_icsv_from_csv_lines (dp : FlexParser) (header : List Str) (rows : List (List Str))
    (icsv_delim : Char) (nodata_override : Option Str) (application_profile : Option Str)
    (creation_date : Str) : List Str :=
  let nodata_value := resolve_nodata nodata_override rows
  let rows' := rows.map (normalizeRow header.length)
  let col_infos := make_col_infos dp header rows
  let geom := detect_geometry_hint header
  let metadata_lines := build_icsv_metadata_section [icsv_delim] header rows.length
    (some nodata_value) geom.1 geom.2 application_profile creation_date
  let fields_lines := build_fields_section header col_infos [icsv_delim]
  write_icsv_lines metadata_lines fields_lines header rows' icsv_delim

/-- Does the line start with the comment character (Python
`line.startswith("#")`). -/
def startsHash : Str → Bool
  | '#' :: _ => true
  | _ => false

/-- The three states of the section scanner in `parse_icsv_metadata`
(`None`, `"metadata"`, `"fields"`). -/
inductive Sec where
  | noSec
  | metadataSec
  | fieldsSec
deriving DecidableEq, Repr

/-- Python `str.split(sep)` for the separators the pipeline actually
uses: a single-character separator splits on that character; other
separators do not arise from the modelled writer (Python raises on an
empty separator) and are left as the identity split. -/
def pySplitSep (sep : Str) (s : Str) : List Str :=
  match sep with
  | [c] => s.splitOn c
  | _ => [s]

/-- The line scanner of `parse_icsv_metadata` from src/validation.py:
walk the lines tracking the current section, stop at `# [DATA]`, and
turn each commented `key = value` line into a dict entry, fields values
naively split on a literal bar. -/
def parse_icsv_go : List Str → Sec → List (Str × Str) → List (Str × List Str) →
    (List (Str × Str)) × (List (Str × List Str))
  | [], _, md, fm => (md, fm)
  | line :: rest, sec, md, fm =>
    if pyStrip line = "# [METADATA]".toList then parse_icsv_go rest .metadataSec md fm
    else if pyStrip line = "# [FIELDS]".toList then parse_icsv_go rest .fieldsSec md fm
    else if pyStrip line = "# [DATA]".toList then (md, fm)
    else if startsHash line ∧ sec ≠ .noSec then
      let content := pyStrip (line.dropWhile (· = '#'))
      if content.contains '=' then
        let key := pyStrip (content.takeWhile (· ≠ '='))
        let value := pyStrip ((content.dropWhile (· ≠ '=')).drop 1)
        match sec with
        | .metadataSec => parse_icsv_go rest sec (dictInsert key value md) fm
        | _ => parse_icsv_go rest sec md (dictInsert key ((value.splitOn '|').map pyStrip) fm)
      else parse_icsv_go rest sec md fm
    else parse_icsv_go rest sec md fm

/-- `parse_icsv_metadata` from src/validation.py: scan the lines, then,
once the declared delimiter is known, rejoin every naively split fields
value with a bar and re-split it with the true delimiter. -/
def parse_icsv_metadata (lines : List Str) : (List (Str × Str)) × (List (Str × List Str)) :=
  let (metadata, fields_meta) := parse_icsv_go lines .noSec [] []
  match List.lookup "field_delimiter".toList metadata with
  | some delim =>
    (metadata,
     fields_meta.map (fun p =>
       (p.1, (pySplitSep delim (List.intercalate ['|'] p.2)).map pyStrip)))
  | none => (metadata, fields_meta)

/-- The single-quote character, spelled by code point. -/
def sq : Char := Char.ofNat 39

/-- The error text for a missing or empty delimiter. -/
def msg_missing_delim : Str := "Missing required metadata: field_delimiter".toList

/-- The error text for an absent fields list. -/
def msg_missing_fields : Str :=
  "Missing [FIELDS] ".toList ++ [sq] ++ "fields".toList ++ [sq] ++ " list".toList

/-- The error text for a fields list of the wrong length. -/
def msg_inconsistent (key : Str) (num found : Nat) : Str :=
  "Inconsistent count in ".toList ++ [sq] ++ key ++ [sq] ++ ": expected ".toList
    ++ natToStr num ++ ", found ".toList ++ natToStr found

/-- `check_metadata` from src/validation.py: collect (never raise) an
error for a missing or empty `field_delimiter`, for an absent `fields`
list, and for every other non-empty fields list whose length differs
from the `fields` length. -/
def check_metadata (metadata : List (Str × Str)) (fields_meta : List (Str × List Str)) : List Str :=
  let e1 := match List.lookup "field_delimiter".toList metadata with
    | none => [msg_missing_delim]
    | some v => if v.isEmpty then [msg_missing_delim] else []
  let e2 := match List.lookup "fields".toList fields_meta with
    | none => [msg_missing_fields]
    | some fs =>
      fields_meta.flatMap (fun p =>
        if p.1 ≠ "fields".toList ∧ ¬ p.2.isEmpty ∧ p.2.length ≠ fs.length then
          [msg_inconsistent p.1 fs.length p.2.length]
        else [])
  e1 ++ e2

/-- Quote-aware parse of one csv line (the `csv.reader([line])` call in
`_read_data_rows`): fields split on the delimiter outside quotes,
doubled quotes collapse inside quotes. -/
def csvParseLineGo (d : Char) : Str → Bool → Str → List Str → List Str
  | [], _, cur, acc => acc ++ [cur.reverse]
  | '"' :: '"' :: rest, true, cur, acc => csvParseLineGo d rest true ('"' :: cur) acc
  | '"' :: rest, true, cur, acc => csvParseLineGo d rest false cur acc
  | c :: rest, true, cur, acc => csvParseLineGo d rest true (c :: cur) acc
  | c :: rest, false, cur, acc =>
    if c = d then csvParseLineGo d rest false [] (acc ++ [cur.reverse])
    else if c = '"' then csvParseLineGo d rest true cur acc
    else csvParseLineGo d rest false (c :: cur) acc

/-- One data line split into cells. -/
def csvParseLine (d : Char) (line : Str) : List Str := csvParseLineGo d line false [] []

/-- `_read_data_rows` from src/validation.py: all non-blank, non-comment
lines after `# [DATA]`; the first is the (stripped) header, the rest are
rows.  The delimiter comes from the metadata (a single character in
every produced file). -/
def read_data_rows (lines : List Str) (sep : Str) : (List Str) × List (List Str) :=
  let d := match sep with | [c] => c | _ => ','
  let step := fun (st : Bool × Option (List Str) × List (List Str)) (line : Str) =>
    let (in_data, header, rows) := st
    if pyStrip line = "# [DATA]".toList then (true, header, rows)
    else if ¬ in_data then st
    else if startsHash (pyStrip line) then st
    else if (pyStrip line).isEmpty then st
    else
      let parts := csvParseLine d line
      match header with
      | none => (true, some (parts.map pyStrip), rows)
      | some h => (true, some h, rows ++ [parts])
  let (_, header, rows) := lines.foldl step (false, none, [])
  (header.getD [], rows)

/-- A schema constraint value: Python stores an `int`, a `float`, or the
raw string when the numeric parse fails. -/
inductive ConstraintVal where
  | int (z : Int)
  | num (q : ℚ)
  | raw (s : Str)
deriving DecidableEq, Repr

/-- One field of the validation-side schema. -/
structure SchemaField where
  name : Str
  type : Str
  description : Option Str
  minimum : Option ConstraintVal
  maximum : Option ConstraintVal
deriving DecidableEq, Repr

/-- The validation-side schema document. -/
structure Schema where
  fields : List SchemaField
  missingValues : List Str
deriving DecidableEq, Repr

/-- The bound parsing of `build_schema_from_metadata`: strings holding a
dot parse as floats, others as ints, and parse failures pass the raw
string through. -/
def parseBound (s : Str) : ConstraintVal :=
  if s.contains '.' then
    match pyFloat s with
    | some q => .num q
    | none => .raw s
  else
    match pyInt s with
    | some z => .int z
    | none => .raw s

/-- `build_schema_from_metadata` from src/validation.py: one schema
field per `fields` entry, with type defaulting to string and numeric or
raw min/max constraints; the missing-value list is the fixed
validation-side vocabulary. -/
def build_schema_from_metadata (fields_meta : List (Str × List Str)) : Schema :=
  let fields := (List.lookup "fields".toList fields_meta).getD []
  let types := (List.lookup "types".toList fields_meta).getD []
  let description := (List.lookup "description".toList fields_meta).getD []
  let min_vals := (List.lookup "min".toList fields_meta).getD []
  let max_vals := (List.lookup "max".toList fields_meta).getD []
  { fields := fields.enum.map (fun p =>
      let i := p.1
      let ty := match types.getD i [] with
        | [] => "string".toList
        | t => if i < types.length then t else "string".toList
      let de := match description.getD i [] with
        | [] => none
        | t => if i < description.length then some t else none
      let mn := match min_vals.getD i [] with
        | [] => none
        | t => if i < min_vals.length then some (parseBound t) else none
      let mx := match max_vals.getD i [] with
        | [] => none
        | t => if i < max_vals.length then some (parseBound t) else none
      { name := p.2, type := ty, description := de, minimum := mn, maximum := mx }),
    missingValues := (["", "NA", "N/A", "null", "-999", "-999.0"] : List String).map String.toList }

/-- One structured validation issue from the external validator. -/
structure FrIssue where
  rowNumber : Option Nat
  fieldNumber : Option Nat
  code : Str
  message : Str
deriving DecidableEq, Repr

/-- The external validator result. -/
structure FrReport where
  valid : Bool
  issues : List FrIssue
deriving DecidableEq, Repr

/-- The `ERROR_SUGGESTIONS` table from src/validation.py. -/
def ERROR_SUGGESTIONS : List (Str × Str) :=
  ([("type-error", "Check that values in this column match the expected type (e.g., numbers, ISO datetimes)."),
    ("missing-cell", "Consider filling missing values, setting a nodata marker, or making the field optional."),
    ("blank-row", "There is an unexpected blank row; remove or investigate formatting issues."),
    ("extra-cell", "A row has too many cells: check delimiter or quoting."),
    ("duplicate-label", "Duplicate column name: rename columns to unique names."),
    ("default", "Inspect the flagged value and fix formatting or data entry issues.")] : List (String × String)).map
    (fun p => (p.1.toList, p.2.toList))

/-- Rendering of an optional issue coordinate: `None` and `0` (both
falsy) print as a question mark. -/
def coordStr : Option Nat → Str
  | none => "?".toList
  | some n => if n = 0 then "?".toList else natToStr n

/-- `_format_report` from src/validation.py: a single OK line when
valid, else a header line plus one located-message line and one
suggestion line per issue. -/
def format_report (report : FrReport) : List Str :=
  if report.valid then ["Data validation [OK]".toList]
  else
    "Data validation errors:".toList ::
      report.issues.flatMap (fun i =>
        let suggestion := (List.lookup i.code ERROR_SUGGESTIONS).getD
          ((List.lookup "default".toList ERROR_SUGGESTIONS).getD [])
        ["  Row ".toList ++ coordStr i.rowNumber ++ ", Col ".toList ++ coordStr i.fieldNumber
           ++ " [".toList ++ i.code ++ "]: ".toList ++ i.message,
         "    Suggestion: ".toList ++ suggestion])

/-- Python `str.replace` (all occurrences), used for the report paths. -/
def strReplace (pat sub : Str) : Str → Str
  | [] => []
  | c :: rest =>
    if _h : pat.isPrefixOf (c :: rest) ∧ ¬ pat.isEmpty then
      sub ++ strReplace pat sub (rest.drop (pat.length - 1))
    else c :: strReplace pat sub rest
termination_by s => s.length
decreasing_by
  · simpa using Nat.lt_succ_of_le (Nat.sub_le _ _)
  · simp

/-- The outcome of a `validate_icsv` run: the returned pair plus the
contents written to the two report files, as lines. -/
structure ValidateOutcome where
  valid : Bool
  report_path : Str
  meta_report : List Str
  data_report : List Str
deriving DecidableEq, Repr

/-- The type of the external validation capability (the frictionless
`Resource.validate` call): it receives the normalized header and rows
and the schema, and either returns a report or fails with a message. -/
abbrev ExtValidator := List Str → List (List Str) → Schema → Except Str FrReport

/-- `validate_icsv` from src/validation.py over the file given as lines:
parse the metadata, run the metadata gate and write its report; on any
gate error write an abort notice to the data report and return invalid
without touching the data section or the external validator; otherwise
read the data, build the schema, normalize the rows, and delegate to the
external validator, formatting its report (or recording its failure). -/
def validate_icsv (ext : ExtValidator) (infile : Str) (lines : List Str)
    (out_report_opt : Option Str) : ValidateOutcome :=
  let out_report := match out_report_opt with
    | some r => r
    | none => strReplace ".icsv".toList "_data_report.txt".toList infile
  let parsed := parse_icsv_metadata lines
  let metadata := parsed.1
  let fields_meta := parsed.2
  let meta_errors := check_metadata metadata fields_meta
  let meta_report :=
    if ¬ meta_errors.isEmpty then
      meta_errors.map (fun e => "ERROR: ".toList ++ e)
        ++ [[], "Please fix metadata issues above.".toList]
    else ["OK: Metadata checks passed.".toList]
  if ¬ meta_errors.isEmpty then
    { valid := false, report_path := out_report, meta_report := meta_report,
      data_report := ["Validation aborted due to metadata errors. See metadata report.".toList] }
  else
    let delim := (List.lookup "field_delimiter".toList metadata).getD "|".toList
    let hr := read_data_rows lines delim
    let header := hr.1
    let data_rows := hr.2
    let schema := build_schema_from_metadata fields_meta
    let tmp_header := if ¬ header.isEmpty then header
      else (List.lookup "fields".toList fields_meta).getD []
    let tmp_rows := data_rows.map (fun r =>
      if r.length < header.length then r ++ List.replicate (header.length - r.length) ([] : Str)
      else r.take header.length)
    match ext tmp_header tmp_rows schema with
    | .ok report =>
      { valid := report.valid, report_path := out_report, meta_report := meta_report,
        data_report := format_report report }
    | .error e =>
      { valid := false, report_path := out_report, meta_report := meta_report,
        data_report := ["Validation failed: ".toList ++ e] }

/-- `detect_delimiter` from src/enrichment.py: the structural sniffing
itself is the out-of-scope stdlib `csv.Sniffer`, modelled as an explicit
fallible capability; any failure falls back to the comma. -/
def detect_delimiter (sniff : Str → Option Char) (sample_text : Str) : Char :=
  match sniff sample_text with
  | some d => d
  | none => ','

/-- The text sample handed to the sniffer: the first `n` lines of the
file, newline-terminated (`"".join(islice(fh, n))`). -/
def sampleOf (n : Nat) (fileLines : List Str) : Str :=
  (fileLines.take n).foldr (fun l acc => l ++ '\n' :: acc) []

/-- The delimiter used by `load_rows_with_frictionless` to parse the
input rows: the forced delimiter, or detection on a ten-line sample. -/
def load_delimiter (sniff : Str → Option Char) (fileLines : List Str)
    (delimiter : Option Char) : Char :=
  match delimiter with
  | some d => d
  | none => detect_delimiter sniff (sampleOf 10 fileLines)

/-- The `detected_delim` computed inside `make_icsv_from_csv` for the
output-delimiter choice: the forced delimiter, or a fresh detection on a
five-line sample. -/
def make_detected_delim (sniff : Str → Option Char) (fileLines : List Str)
    (user_delimiter : Option Char) : Char :=
  match user_delimiter with
  | some d => d
  | none => detect_delimiter sniff (sampleOf 5 fileLines)

/-- The output (iCSV) delimiter choice of `make_icsv_from_csv`: switch a
comma to a bar, keep anything else. -/
def make_icsv_delim (sniff : Str → Option Char) (fileLines : List Str)
    (user_delimiter : Option Char) : Char :=
  let detected := make_detected_delim sniff fileLines user_delimiter
  if detected = ',' then '|' else detected

/-- The candidate delimiters offered to the sniffer in the source. -/
def SNIFF_CANDIDATES : List Char := [',', '|', ';', ':', '\t', '/']

/-- The lines of a sniffing sample (trailing newline producing no extra
empty line). -/
def sampleLines (sample : Str) : List Str :=
  let ls := sample.splitOn '\n'
  if ls.getLast? = some [] then ls.dropLast else ls

/-- Does candidate `d` occur a consistent positive number of times on
every sampled line. -/
def consistentCount (d : Char) (ls : List Str) : Bool :=
  match ls with
  | [] => false
  | l :: rest => decide (1 ≤ l.count d) && rest.all (fun x => x.count d = l.count d)

/-- Modelled from the spec: the structural sniffing of the delimiter
detector (the stdlib `csv.Sniffer`, an out-of-scope external
primitive) — a candidate that occurs a consistent positive number of
times on every sampled line is detected, and any ambiguity or failure
makes the sniff fail.  On the concrete file used below it reproduces the
observed behaviour of the stdlib sniffer: five consistent
semicolon-delimited lines sniff as the semicolon, while the ten-line
sample ending in delimiter-free lines fails. -/
def spec_sniffer (sample : Str) : Option Char :=
  match SNIFF_CANDIDATES.filter (fun d => consistentCount d (sampleLines sample)) with
  | [d] => some d
  | _ => none

/-! ## Shared helper lemmas -/

theorem foldl_and_triple (l : List Str) (f g h : Str → Bool) (a b c : Bool) :
    l.foldl (fun (p : Bool × Bool × Bool) v => (p.1 && f v, p.2.1 && g v, p.2.2 && h v)) (a, b, c)
      = (a && l.all f, b && l.all g, c && l.all h) := by
  induction l generalizing a b c with
  | nil => simp
  | cons x xs ih => simp [List.all_cons, ih, Bool.and_assoc]

theorem dropWhile_idem (p : Char → Bool) (l : Str) :
    (l.dropWhile p).dropWhile p = l.dropWhile p := by
  induction l with
  | nil => rfl
  | cons x xs ih =>
    by_cases hx : p x
    · simpa [List.dropWhile_cons, hx] using ih
    · simp [List.dropWhile_cons, hx]

theorem pyLstrip_idem (s : Str) : pyLstrip (pyLstrip s) = pyLstrip s :=
  dropWhile_idem _ s

theorem pyRstrip_idem (s : Str) : pyRstrip (pyRstrip s) = pyRstrip s := by
  simp [pyRstrip, dropWhile_idem]

theorem pyLstrip_head_not_space (s : Str) (c : Char) (hc : (pyLstrip s).head? = some c) :
    ¬ pyIsSpace c = true := by
  induction s with
  | nil => simp [pyLstrip] at hc
  | cons x xs ih =>
    by_cases hx : pyIsSpace x
    · exact ih (by simpa [pyLstrip, List.dropWhile_cons, hx] using hc)
    · simp only [pyLstrip, List.dropWhile_cons, hx, Bool.false_eq_true, if_false,
        List.head?_cons, Option.some.injEq] at hc
      simpa [← hc] using hx

theorem pyRstrip_prefix (s : Str) : (pyRstrip s).isPrefixOf s = true := by
  have h : (s.reverse.dropWhile pyIsSpace).isSuffixOf s.reverse = true := by
    simpa [List.isSuffixOf_iff_suffix] using List.dropWhile_suffix (l := s.reverse) pyIsSpace
  rw [List.isSuffixOf_iff_suffix] at h
  rw [List.isPrefixOf_iff_prefix, pyRstrip]
  simpa using h.reverse

theorem pyRstrip_head? (s : Str) (c : Char) (hc : (pyRstrip s).head? = some c) :
    s.head? = some c := by
  have h := pyRstrip_prefix s
  rw [List.isPrefixOf_iff_prefix] at h
  obtain ⟨t, ht⟩ := h
  cases hr : pyRstrip s with
  | nil => simp [hr] at hc
  | cons y ys =>
    rw [hr] at ht hc
    simp only [List.head?_cons, Option.some.injEq] at hc
    simp [← ht, hc]

theorem pyStrip_idem (s : Str) : pyStrip (pyStrip s) = pyStrip s := by
  unfold pyStrip
  have h1 : pyLstrip (pyRstrip (pyLstrip s)) = pyRstrip (pyLstrip s) := by
    cases hr : (pyRstrip (pyLstrip s)).head? with
    | none =>
      have hnil : pyRstrip (pyLstrip s) = [] := by
        cases h : pyRstrip (pyLstrip s) with
        | nil => rfl
        | cons y ys => simp [h] at hr
      rw [hnil]
      rfl
    | some c =>
      have hc := pyRstrip_head? _ _ hr
      have hcs := pyLstrip_head_not_space s c hc
      cases h : pyRstrip (pyLstrip s) with
      | nil => simp [pyLstrip]
      | cons y ys =>
        rw [h] at hr
        simp only [List.head?_cons, Option.some.injEq] at hr
        subst hr
        simp [pyLstrip, List.dropWhile_cons, hcs]
  rw [h1, pyRstrip_idem]

theorem pyStrip_map_self (l : List Str) (h : ∀ v ∈ l, pyStrip v = v) :
    l.map pyStrip = l := by
  induction l with
  | nil => rfl
  | cons x xs ih =>
    simp only [List.map_cons, h x (by simp), List.cons.injEq, true_and]
    exact ih (fun v hv => h v (by simp [hv]))

/-! ## C1: type-inference priority -/

/-- C1: `infer_column_type` prunes the whitespace-stripped values
through the missing set and reports, in strict priority order,
`integer` when every pruned value matches the integer pattern, else
`number` when every pruned value matches the integer-or-decimal
pattern, else `datetime` when the cascade accepts every pruned value,
else `string` (also for an empty pruned list).  In particular a column
of all-integer-looking strings is reported `integer` no matter what the
datetime cascade (any flexible parser included) would say about it. -/
theorem infer_column_type_priority (dp : FlexParser) (values missing_values : List Str) :
    (infer_column_type dp values missing_values =
      (let pruned := (values.map pyStrip).filter (fun v => !(missing_values.contains v))
       if pruned.isEmpty then "string".toList
       else if pruned.all INT_RE then "integer".toList
       else if pruned.all (fun v => INT_RE v || FLOAT_RE v) then "number".toList
       else if pruned.all (try_parse_datetime dp) then "datetime".toList
       else "string".toList)) ∧
    (((values.map pyStrip).filter (fun v => !(missing_values.contains v))) ≠ [] →
      ((values.map pyStrip).filter (fun v => !(missing_values.contains v))).all INT_RE = true →
      ∀ dp' : FlexParser, infer_column_type dp' values missing_values = "integer".toList) := by
  constructor
  · unfold infer_column_type
    simp only [foldl_and_triple, Bool.true_and]
  · intro hne hall dp'
    unfold infer_column_type
    simp only [foldl_and_triple, Bool.true_and, hall, List.isEmpty_eq_true, hne, if_false, if_true]

/-- Witness for C1 at a concrete column: `20200101` looks like both an
integer and a date, and is reported `integer`. -/
theorem infer_column_type_priority_witness :
    infer_column_type (some (fun _ => some ⟨2020, 1, 1, 0, 0, 0⟩))
      (["20200101"].map String.toList) ENRICHMENT_COMMON_MISSING = "integer".toList :=
  (infer_column_type_priority none (["20200101"].map String.toList) ENRICHMENT_COMMON_MISSING).2
    (by decide) (by decide) (some (fun _ => some ⟨2020, 1, 1, 0, 0, 0⟩))

/-! ## C4: the metadata gate conditions -/

/-- C4: `check_metadata` reports at least one error exactly when the
`field_delimiter` metadata entry is absent or empty, or the `fields`
list is absent, or some other fields entry is non-empty with a length
different from the `fields` length; empty-but-present lists never
contribute, and the checker is a total function into a list. -/
theorem check_metadata_nonempty_iff (md : List (Str × Str)) (fm : List (Str × List Str)) :
    check_metadata md fm ≠ [] ↔
      (List.lookup "field_delimiter".toList md = none ∨
       List.lookup "field_delimiter".toList md = some [] ∨
       List.lookup "fields".toList fm = none ∨
       ∃ fs, List.lookup "fields".toList fm = some fs ∧
         ∃ p ∈ fm, p.1 ≠ "fields".toList ∧ p.2 ≠ [] ∧ p.2.length ≠ fs.length) := by
  unfold check_metadata
  cases hd : List.lookup "field_delimiter".toList md with
  | none => simp [hd]
  | some v =>
    by_cases hv : v = []
    · subst hv
      simp [hd]
    · cases hf : List.lookup "fields".toList fm with
      | none => simp [hd, hf, hv, List.isEmpty_eq_true]
      | some fs =>
        simp only [hd, hf, List.isEmpty_eq_true, hv, if_false, List.nil_append,
          Option.some.injEq, reduceCtorEq, false_or, ne_eq]
        constructor
        · intro hne
          rcases List.exists_mem_of_ne_nil _ hne with ⟨m, hm⟩
          rw [List.mem_flatMap] at hm
          obtain ⟨p, hp, hmp⟩ := hm
          rw [List.mem_ite_nil_right] at hmp
          exact ⟨fs, rfl, p, hp, hmp.1.1, hmp.1.2.1, hmp.1.2.2⟩
        · rintro ⟨fs', hfs', p, hp, hk, hne2, hlen⟩
          subst hfs'
          intro hnil
          rw [List.flatMap_eq_nil_iff] at hnil
          have h2 := hnil p hp
          rw [if_pos ⟨hk, hne2, hlen⟩] at h2
          exact List.cons_ne_nil _ _ h2

/-! ## C8: geometry hint detection -/

/-- Lower-cased name (the header scan is case-insensitive). -/
def lowName (h : Str) : Str := h.map Char.toLower

/-- Is the lower-cased name a latitude name. -/
def latName (h : Str) : Bool :=
  decide (lowName h = "lat".toList ∨ lowName h = "latitude".toList)

/-- Is the lower-cased name a longitude name. -/
def lonName (h : Str) : Bool :=
  decide (lowName h = "lon".toList ∨ lowName h = "lng".toList ∨ lowName h = "longitude".toList)

/-- The geometry-hint rule as the spec states it: the first column
literally named `geometry` (case-insensitively) yields `column:<name>`
with no SRID; otherwise the last latitude-named and last
longitude-named columns, when both exist, yield `column:<lat>,<lon>`
with the WGS84 SRID; otherwise no hint. -/
def geometry_hint_spec (header : List Str) : Option Str × Option Str :=
  match header.find? (fun h => decide (lowName h = "geometry".toList)) with
  | some g => (some ("column:".toList ++ g), none)
  | none =>
    match (header.filter latName).getLast?, (header.filter lonName).getLast? with
    | some la, some lo =>
      (some ("column:".toList ++ la ++ [','] ++ lo), some "EPSG:4326".toList)
    | _, _ => (none, none)

theorem geo_contains_iff (header : List Str) :
    (header.map lowName).contains "geometry".toList
      = (header.find? (fun h => decide (lowName h = "geometry".toList))).isSome := by
  induction header with
  | nil => rfl
  | cons x xs ih =>
    by_cases hx : lowName x = "geometry".toList
    · rw [List.find?_cons_of_pos _ (by simpa using hx)]
      rw [List.map_cons, List.contains_cons]
      have hb : ("geometry".toList == lowName x) = true := by
        rw [beq_iff_eq]
        exact hx.symm
      rw [hb, Bool.true_or]
      rfl
    · rw [List.find?_cons_of_neg _ (by simpa using hx)]
      have hb : ("geometry".toList == lowName x) = false := by
        rw [beq_eq_false_iff_ne]
        exact fun he => hx he.symm
      rw [List.map_cons, List.contains_cons, hb, Bool.false_or, ih]

theorem geo_first (header : List Str) (g : Str)
    (h : header.find? (fun h => decide (lowName h = "geometry".toList)) = some g) :
    header.getD ((header.map lowName).indexOf "geometry".toList) [] = g := by
  induction header with
  | nil => simp at h
  | cons x xs ih =>
    by_cases hx : lowName x = "geometry".toList
    · rw [List.find?_cons_of_pos _ (by simpa using hx)] at h
      simp only [Option.some.injEq] at h
      subst h
      have hb : (lowName x == "geometry".toList) = true := by
        rw [beq_iff_eq]
        exact hx
      rw [List.map_cons, List.indexOf_cons, hb]
      rfl
    · rw [List.find?_cons_of_neg _ (by simpa using hx)] at h
      have hb : (lowName x == "geometry".toList) = false := by
        rw [beq_eq_false_iff_ne]
        exact hx
      simp only [List.map_cons, List.indexOf_cons, hb, cond_false]
      simpa using ih h

theorem foldl_last_pair (q r : Nat × Str → Prop) [DecidablePred q] [DecidablePred r]
    (l : List (Nat × Str)) (st : Option Nat × Option Nat) :
    l.foldl (fun (st : Option Nat × Option Nat) p =>
        let st1 := if q p then (some p.1, st.2) else st
        if r p then (st1.1, some p.1) else st1) st
      = (((l.filter (fun p => decide (q p))).getLast?.map Prod.fst).or st.1,
         ((l.filter (fun p => decide (r p))).getLast?.map Prod.fst).or st.2) := by
  have hgl : ∀ (y : Nat × Str) (l : List (Nat × Str)) (d : Option Nat),
      (((y :: l).getLast?.map Prod.fst).or d) = ((l.getLast?.map Prod.fst).or (some y.1)) := by
    intro y l d
    cases l with
    | nil => rfl
    | cons a b =>
      rw [List.getLast?_cons_cons]
      cases hl : (a :: b).getLast? with
      | none => simp at hl
      | some z => rfl
  induction l generalizing st with
  | nil => simp
  | cons x xs ih =>
    rw [List.foldl_cons, ih]
    by_cases hq : q x <;> by_cases hr : r x
    · simp only [hq, hr, if_true]
      rw [List.filter_cons, List.filter_cons, decide_eq_true hq, decide_eq_true hr,
        if_pos rfl, if_pos rfl, hgl x _ st.1, hgl x _ st.2]
    · simp only [hq, hr, if_true, if_false]
      rw [List.filter_cons, List.filter_cons, decide_eq_true hq, decide_eq_false hr,
        if_pos rfl, if_neg Bool.false_ne_true, hgl x _ st.1]
    · simp only [hq, hr, if_true, if_false]
      rw [List.filter_cons, List.filter_cons, decide_eq_false hq, decide_eq_true hr,
        if_neg Bool.false_ne_true, if_pos rfl, hgl x _ st.2]
    · simp only [hq, hr, if_false]
      rw [List.filter_cons, List.filter_cons, decide_eq_false hq, decide_eq_false hr,
        if_neg Bool.false_ne_true, if_neg Bool.false_ne_true]

theorem filtered_last_getD (header : List Str) (q : Str → Bool) (p : Nat × Str)
    (h : (header.enum.filter (fun p => q p.2)).getLast? = some p) :
    header.getD p.1 [] = p.2 := by
  have hmem : p ∈ header.enum.filter (fun p => q p.2) :=
    List.mem_of_getLast?_eq_some h
  have hmem2 : p ∈ header.enum := (List.mem_filter.mp hmem).1
  have hget : header[p.1]? = some p.2 := by
    have := List.mem_enum_iff_getElem?.mp hmem2
    simpa using this
  simp [List.getD, hget]

theorem filtered_last_snd (header : List Str) (q : Str → Bool) :
    ((header.enum.filter (fun p => q p.2)).getLast?.map Prod.snd)
      = (header.filter q).getLast? := by
  have h2 := List.filter_map (p := q) Prod.snd header.enum
  rw [List.enum_map_snd] at h2
  have h3 : (fun p : Nat × Str => q p.2) = (q ∘ Prod.snd) := rfl
  rw [h3, h2, List.getLast?_map]

/-- C8: `detect_geometry_hint` computes exactly the spec rule: the first
case-insensitive `geometry` column alone (no SRID), else the last
latitude and longitude columns with `EPSG:4326`, else no hint. -/
theorem detect_geometry_hint_spec_eq (header : List Str) :
    detect_geometry_hint header = geometry_hint_spec header := by
  unfold detect_geometry_hint geometry_hint_spec
  rw [show (fun h : Str => h.map Char.toLower) = lowName from rfl]
  dsimp only
  rw [geo_contains_iff]
  cases hfind : header.find? (fun h => decide (lowName h = "geometry".toList)) with
  | some g =>
    simp only [hfind, Option.isSome_some, if_true]
    rw [geo_first header g hfind]
  | none =>
    simp only [hfind, Option.isSome_none, Bool.false_eq_true, if_false]
    rw [List.enum_map, List.foldl_map]
    have hfold := foldl_last_pair
      (fun p : Nat × Str => lowName p.2 = "lat".toList ∨ lowName p.2 = "latitude".toList)
      (fun p : Nat × Str => lowName p.2 = "lon".toList ∨ lowName p.2 = "lng".toList ∨
        lowName p.2 = "longitude".toList)
      header.enum (none, none)
    have hcomp : (fun (st : Option Nat × Option Nat) (p : Nat × Str) =>
        (fun (st : Option Nat × Option Nat) (p : Nat × Str) =>
          let st1 := if p.2 = "lat".toList ∨ p.2 = "latitude".toList then (some p.1, st.2) else st
          if p.2 = "lon".toList ∨ p.2 = "lng".toList ∨ p.2 = "longitude".toList
            then (st1.1, some p.1) else st1) st (Prod.map id lowName p))
        = (fun (st : Option Nat × Option Nat) (p : Nat × Str) =>
          let st1 := if lowName p.2 = "lat".toList ∨ lowName p.2 = "latitude".toList
            then (some p.1, st.2) else st
          if lowName p.2 = "lon".toList ∨ lowName p.2 = "lng".toList ∨
              lowName p.2 = "longitude".toList
            then (st1.1, some p.1) else st1) := by
      funext st p
      rfl
    rw [hcomp, hfold]
    have hlatf : (fun p : Nat × Str =>
        decide (lowName p.2 = "lat".toList ∨ lowName p.2 = "latitude".toList))
        = (fun p : Nat × Str => latName p.2) := by
      funext p
      rfl
    have hlonf : (fun p : Nat × Str =>
        decide (lowName p.2 = "lon".toList ∨ lowName p.2 = "lng".toList ∨
          lowName p.2 = "longitude".toList))
        = (fun p : Nat × Str => lonName p.2) := by
      funext p
      rfl
    rw [hlatf, hlonf]
    cases hla : (header.enum.filter (fun p => latName p.2)).getLast? with
    | none =>
      have hspec : (header.filter latName).getLast? = none := by
        rw [← filtered_last_snd, hla]
        rfl
      simp [hla, hspec, Option.or_some, Option.none_or]
    | some pla =>
      cases hlo : (header.enum.filter (fun p => lonName p.2)).getLast? with
      | none =>
        have hspec : (header.filter lonName).getLast? = none := by
          rw [← filtered_last_snd, hlo]
          rfl
        simp [hla, hlo, hspec, Option.or_some, Option.none_or]
      | some plo =>
        have hsla : (header.filter latName).getLast? = some pla.2 := by
          rw [← filtered_last_snd, hla]
          rfl
        have hslo : (header.filter lonName).getLast? = some plo.2 := by
          rw [← filtered_last_snd, hlo]
          rfl
        simp only [hla, hlo, hsla, hslo, Option.map_some', Option.or_some, Option.none_or]
        rw [filtered_last_getD header _ pla hla, filtered_last_getD header _ plo hlo]

/-! ## C7: all-missing columns and the missing count -/

/-- The stripped cell values of column `i` (after row normalization),
exactly as `make_col_infos` materializes them. -/
def colValuesAt (header : List Str) (rows : List (List Str)) (i : Nat) : List Str :=
  ((rows.map (normalizeRow header.length)).map (fun r => r.getD i [])).map pyStrip

/-- The pruned values of column `i` (missing and empty cells dropped). -/
def prunedAt (header : List Str) (rows : List (List Str)) (i : Nat) : List Str :=
  (colValuesAt header rows i).filter
    (fun v => !(ENRICHMENT_COMMON_MISSING.contains v) && !(v == ([] : Str)))

/-- The inferred type of column `i`. -/
def inferredAt (dp : FlexParser) (header : List Str) (rows : List (List Str)) (i : Nat) : Str :=
  infer_column_type dp (colValuesAt header rows i) ENRICHMENT_COMMON_MISSING

/-- The type-dependent min/max pair of column `i`. -/
def minmaxAt (dp : FlexParser) (header : List Str) (rows : List (List Str)) (i : Nat) :
    Option CellVal × Option CellVal :=
  if inferredAt dp header rows i = "integer".toList ∨ inferredAt dp header rows i = "number".toList
  then compute_numeric_minmax (prunedAt header rows i) (inferredAt dp header rows i)
  else if inferredAt dp header rows i = "datetime".toList then
    compute_datetime_minmax dp (prunedAt header rows i)
  else (none, none)

/-- The missing-cell count of column `i`. -/
def missingCountAt (header : List Str) (rows : List (List Str)) (i : Nat) : Nat :=
  ((colValuesAt header rows i).filter
    (fun v => ENRICHMENT_COMMON_MISSING.contains v || v == ([] : Str))).length

theorem make_col_infos_getD (dp : FlexParser) (header : List Str) (rows : List (List Str))
    (i : Nat) (hi : i < header.length) (df : ColInfo) :
    (make_col_infos dp header rows).getD i df =
      { name := header.getD i []
        type := inferredAt dp header rows i
        min := (minmaxAt dp header rows i).1
        max := (minmaxAt dp header rows i).2
        missing_count := missingCountAt header rows i
        description := [] } := by
  unfold make_col_infos minmaxAt inferredAt prunedAt missingCountAt colValuesAt
  rw [List.getD_eq_getElem?_getD, List.getElem?_map, List.getElem?_range hi]
  rfl

theorem mem_col_values_strip (X : List Str) (v : Str) (hv : v ∈ X.map pyStrip) :
    pyStrip v = v := by
  rw [List.mem_map] at hv
  obtain ⟨u, _, hu⟩ := hv
  rw [← hu, pyStrip_idem]

theorem colValuesAt_strip (header : List Str) (rows : List (List Str)) (i : Nat)
    (v : Str) (hv : v ∈ colValuesAt header rows i) : pyStrip v = v :=
  mem_col_values_strip _ v hv

theorem infer_all_missing (dp : FlexParser) (header : List Str) (rows : List (List Str))
    (i : Nat) (hall : ∀ v ∈ colValuesAt header rows i,
      ENRICHMENT_COMMON_MISSING.contains v = true) :
    inferredAt dp header rows i = "string".toList := by
  unfold inferredAt infer_column_type
  have hfe : ((colValuesAt header rows i).map pyStrip).filter
      (fun v => !(ENRICHMENT_COMMON_MISSING.contains v)) = [] := by
    rw [List.filter_eq_nil_iff]
    intro v hv
    rw [List.mem_map] at hv
    obtain ⟨u, hu, huv⟩ := hv
    have h1 : pyStrip u = u := colValuesAt_strip header rows i u hu
    have h2 := hall u hu
    rw [← huv, h1, h2]
    decide
  rw [hfe]
  rfl

/-- C7: in the per-column profile, `missing_count` counts exactly the
whitespace-stripped cells that are empty or missing-set members; and a
column whose stripped cells all lie in the missing set is profiled as
`string`, with absent min and max (rendered as empty strings in the
FIELDS block) and a missing count equal to the column length. -/
theorem col_profile_all_missing (dp : FlexParser) (header : List Str) (rows : List (List Str))
    (i : Nat) (hi : i < header.length) :
    (((make_col_infos dp header rows).getD i ⟨[], [], none, none, 0, []⟩).missing_count
        = missingCountAt header rows i) ∧
      ((∀ v ∈ colValuesAt header rows i, ENRICHMENT_COMMON_MISSING.contains v = true) →
        ((make_col_infos dp header rows).getD i ⟨[], [], none, none, 0, []⟩).type
            = "string".toList ∧
        ((make_col_infos dp header rows).getD i ⟨[], [], none, none, 0, []⟩).min = none ∧
        ((make_col_infos dp header rows).getD i ⟨[], [], none, none, 0, []⟩).max = none ∧
        renderOptCell ((make_col_infos dp header rows).getD i ⟨[], [], none, none, 0, []⟩).min
            = [] ∧
        renderOptCell ((make_col_infos dp header rows).getD i ⟨[], [], none, none, 0, []⟩).max
            = [] ∧
        ((make_col_infos dp header rows).getD i ⟨[], [], none, none, 0, []⟩).missing_count
            = (colValuesAt header rows i).length) := by
  rw [make_col_infos_getD dp header rows i hi]
  constructor
  · rfl
  · intro hall
    have hstring := infer_all_missing dp header rows i hall
    have hmm : minmaxAt dp header rows i = (none, none) := by
      unfold minmaxAt
      rw [hstring, if_neg (by decide), if_neg (by decide)]
    have hfull : (colValuesAt header rows i).filter
        (fun v => ENRICHMENT_COMMON_MISSING.contains v || v == ([] : Str))
        = colValuesAt header rows i := by
      rw [List.filter_eq_self]
      intro v hv
      rw [hall v hv]
      rfl
    refine ⟨hstring, ?_, ?_, ?_, ?_, ?_⟩
    · rw [hmm]
    · rw [hmm]
    · rw [hmm]
      rfl
    · rw [hmm]
      rfl
    · unfold missingCountAt
      rw [hfull]

/-- Witness for C7: a single column whose two cells strip to missing
tokens. -/
theorem col_profile_all_missing_witness :
    ((make_col_infos none ["a".toList] [["NA".toList], [" -999 ".toList]]).getD 0
        ⟨[], [], none, none, 0, []⟩).type = "string".toList ∧
    ((make_col_infos none ["a".toList] [["NA".toList], [" -999 ".toList]]).getD 0
        ⟨[], [], none, none, 0, []⟩).missing_count = 2 := by
  have h := (col_profile_all_missing none ["a".toList] [["NA".toList], [" -999 ".toList]]
    0 (by decide)).2 (by decide)
  exact ⟨h.1, by rw [h.2.2.2.2.2]; decide⟩

/-! ## C10: numeric casts cannot fail on inferred numeric columns -/

theorem isDigit_not_space (c : Char) (h : c.isDigit = true) : pyIsSpace c = false := by
  cases hsp : pyIsSpace c
  · rfl
  · exfalso
    unfold pyIsSpace at hsp
    simp only [Bool.or_eq_true, decide_eq_true_eq] at hsp
    rcases hsp with ((((h1 | h1) | h1) | h1) | h1) | h1 <;>
      (subst h1; exact absurd h (by decide))

theorem isDigit_ne_dash (c : Char) (h : c.isDigit = true) : ¬ c = '-' := by
  intro he
  subst he
  exact absurd h (by decide)

theorem isDigit_ne_plus (c : Char) (h : c.isDigit = true) : ¬ c = '+' := by
  intro he
  subst he
  exact absurd h (by decide)

theorem no_space_strip (v : Str) (h : ∀ c ∈ v, pyIsSpace c = false) : pyStrip v = v := by
  have hl : pyLstrip v = v := by
    unfold pyLstrip
    cases v with
    | nil => rfl
    | cons x xs =>
      rw [List.dropWhile_cons_of_neg]
      simp [h x (by simp)]
  rw [pyStrip, hl]
  unfold pyRstrip
  cases hrev : v.reverse with
  | nil =>
    rw [List.reverse_eq_nil_iff.mp hrev]
    rfl
  | cons y ys =>
    rw [List.dropWhile_cons_of_neg]
    · rw [← hrev, List.reverse_reverse]
    · have hy : y ∈ v := by
        rw [← List.mem_reverse, hrev]
        simp
      simp [h y hy]

theorem digitsNonempty_all (v : Str) (h : digitsNonempty v = true) :
    v ≠ [] ∧ ∀ c ∈ v, c.isDigit = true := by
  unfold digitsNonempty at h
  rw [Bool.and_eq_true, List.all_eq_true] at h
  refine ⟨?_, h.2⟩
  cases v with
  | nil => exact absurd h.1 (by decide)
  | cons c cs => simp

theorem INT_RE_cases (v : Str) (h : INT_RE v = true) :
    (v.head? = some '-' ∧ digitsNonempty (v.drop 1) = true) ∨
      (¬ v.head? = some '-' ∧ digitsNonempty v = true) := by
  unfold INT_RE at h
  by_cases hd : v.head? = some '-'
  · rw [if_pos hd] at h
    exact Or.inl ⟨hd, h⟩
  · rw [if_neg hd] at h
    exact Or.inr ⟨hd, h⟩

theorem INT_RE_strip (v : Str) (h : INT_RE v = true) : pyStrip v = v := by
  apply no_space_strip
  intro c hc
  rcases INT_RE_cases v h with ⟨hd, hdig⟩ | ⟨_, hdig⟩
  · obtain ⟨c0, cs, hv⟩ : ∃ c0 cs, v = c0 :: cs := by
      cases v with
      | nil => simp at hd
      | cons c0 cs => exact ⟨c0, cs, rfl⟩
    rw [hv, List.head?_cons, Option.some.injEq] at hd
    subst hd
    rw [hv] at hc hdig
    rcases List.mem_cons.mp hc with rfl | hcx
    · decide
    · exact isDigit_not_space c ((digitsNonempty_all cs (by simpa using hdig)).2 c hcx)
  · exact isDigit_not_space c ((digitsNonempty_all v hdig).2 c hc)

theorem head?_digit_ne_dash (v : Str) (hne : v ≠ []) (hall : ∀ c ∈ v, c.isDigit = true) :
    ¬ v.head? = some '-' := by
  cases v with
  | nil => exact absurd rfl hne
  | cons c cs =>
    intro he
    rw [List.head?_cons, Option.some.injEq] at he
    exact isDigit_ne_dash c (hall c (by simp)) he

theorem head?_digit_ne_plus (v : Str) (hne : v ≠ []) (hall : ∀ c ∈ v, c.isDigit = true) :
    ¬ v.head? = some '+' := by
  cases v with
  | nil => exact absurd rfl hne
  | cons c cs =>
    intro he
    rw [List.head?_cons, Option.some.injEq] at he
    exact isDigit_ne_plus c (hall c (by simp)) he

theorem isEmpty_false_of_ne (l : Str) (h : l ≠ []) : l.isEmpty = false := by
  cases l with
  | nil => exact absurd rfl h
  | cons a b => rfl

theorem pyInt_isSome (v : Str) (h : INT_RE v = true) : (pyInt v).isSome = true := by
  unfold pyInt
  rw [INT_RE_strip v h]
  dsimp only
  rcases INT_RE_cases v h with ⟨hd, hdig⟩ | ⟨hd, hdig⟩
  · rw [if_pos hd]
    dsimp only
    rw [hdig, if_pos rfl]
    rfl
  · obtain ⟨hne, hall⟩ := digitsNonempty_all v hdig
    rw [if_neg hd, if_neg (head?_digit_ne_plus v hne hall)]
    dsimp only
    rw [hdig, if_pos rfl]
    rfl

theorem takeWhile_digits_append (a b : Str) (ha : ∀ c ∈ a, c.isDigit = true) :
    (a ++ '.' :: b).takeWhile Char.isDigit = a := by
  induction a with
  | nil =>
    rw [List.nil_append, List.takeWhile_cons_of_neg]
    decide
  | cons x xs ih =>
    rw [List.cons_append, List.takeWhile_cons_of_pos (ha x (by simp))]
    rw [ih (fun c hc => ha c (by simp [hc]))]

theorem dropWhile_digits_append (a b : Str) (ha : ∀ c ∈ a, c.isDigit = true) :
    (a ++ '.' :: b).dropWhile Char.isDigit = '.' :: b := by
  induction a with
  | nil =>
    rw [List.nil_append, List.dropWhile_cons_of_neg]
    decide
  | cons x xs ih =>
    rw [List.cons_append, List.dropWhile_cons_of_pos (ha x (by simp))]
    exact ih (fun c hc => ha c (by simp [hc]))

theorem span_digits_dot (a b : Str) (ha : ∀ c ∈ a, c.isDigit = true) :
    (a ++ '.' :: b).span Char.isDigit = (a, '.' :: b) := by
  rw [List.span_eq_take_drop, takeWhile_digits_append a b ha, dropWhile_digits_append a b ha]

theorem span_all_digits (a : Str) (ha : ∀ c ∈ a, c.isDigit = true) :
    a.span Char.isDigit = (a, []) := by
  rw [List.span_eq_take_drop, List.takeWhile_eq_self_iff.mpr ha,
    List.dropWhile_eq_nil_iff.mpr ha]

theorem FLOAT_RE_split (s : Str) (h : FLOAT_RE s = true) :
    ∃ a b, floatBody s = a ++ '.' :: b ∧ digitsNonempty a = true ∧ digitsNonempty b = true := by
  unfold FLOAT_RE at h
  by_cases hh : ((floatBody s).span (fun c => c != '.')).2.head? = some '.'
  · rw [if_pos hh, Bool.and_eq_true] at h
    obtain ⟨c2, tl, hsp2⟩ : ∃ c2 tl, ((floatBody s).span (fun c => c != '.')).2 = c2 :: tl := by
      cases hc : ((floatBody s).span (fun c => c != '.')).2 with
      | nil =>
        rw [hc] at hh
        simp at hh
      | cons c2 tl => exact ⟨c2, tl, rfl⟩
    have hc2 : c2 = '.' := by
      rw [hsp2, List.head?_cons, Option.some.injEq] at hh
      exact hh
    refine ⟨((floatBody s).span (fun c => c != '.')).1, tl, ?_, h.1, ?_⟩
    · have hsplit : ((floatBody s).span (fun c => c != '.')).1
          ++ ((floatBody s).span (fun c => c != '.')).2 = floatBody s := by
        rw [List.span_eq_take_drop]
        exact List.takeWhile_append_dropWhile _ _
      rw [hsp2, hc2] at hsplit
      exact hsplit.symm
    · have h2 := h.2
      rw [hsp2] at h2
      simpa using h2
  · rw [if_neg hh] at h
    exact absurd h (by decide)

theorem floatBody_cases (s : Str) : s = floatBody s ∨ s = '-' :: floatBody s := by
  unfold floatBody
  by_cases hd : s.head? = some '-'
  · rw [if_pos hd]
    cases s with
    | nil => simp at hd
    | cons c cs =>
      rw [List.head?_cons, Option.some.injEq] at hd
      subst hd
      exact Or.inr rfl
  · rw [if_neg hd]
    exact Or.inl rfl

theorem FLOAT_RE_strip (v : Str) (h : FLOAT_RE v = true) : pyStrip v = v := by
  obtain ⟨a, b, hbody, ha, hb⟩ := FLOAT_RE_split v h
  apply no_space_strip
  have hmem : ∀ c ∈ floatBody v, pyIsSpace c = false := by
    rw [hbody]
    intro c hc
    rcases List.mem_append.mp hc with hca | hcb
    · exact isDigit_not_space c ((digitsNonempty_all a ha).2 c hca)
    · rcases List.mem_cons.mp hcb with rfl | hcb2
      · decide
      · exact isDigit_not_space c ((digitsNonempty_all b hb).2 c hcb2)
  intro c hc
  rcases floatBody_cases v with hv | hv
  · exact hmem c (hv ▸ hc)
  · rw [hv] at hc
    rcases List.mem_cons.mp hc with rfl | hcb
    · decide
    · exact hmem c hcb

theorem pyFloat_isSome (v : Str) (h : (INT_RE v || FLOAT_RE v) = true) :
    (pyFloat v).isSome = true := by
  rcases Bool.or_eq_true_iff.mp h with hint | hfl
  · unfold pyFloat
    rw [INT_RE_strip v hint]
    dsimp only
    rcases INT_RE_cases v hint with ⟨hd, hdig⟩ | ⟨hd, hdig⟩
    · obtain ⟨hne, hall⟩ := digitsNonempty_all _ hdig
      have hsp := span_all_digits (v.drop 1) hall
      rw [if_pos hd]
      dsimp only
      rw [hsp]
      dsimp only
      rw [List.isEmpty_nil, if_pos rfl, isEmpty_false_of_ne _ hne,
        if_neg Bool.false_ne_true]
      rfl
    · obtain ⟨hne, hall⟩ := digitsNonempty_all v hdig
      have hsp := span_all_digits v hall
      rw [if_neg hd, if_neg (head?_digit_ne_plus v hne hall)]
      dsimp only
      rw [hsp]
      dsimp only
      rw [List.isEmpty_nil, if_pos rfl, isEmpty_false_of_ne _ hne,
        if_neg Bool.false_ne_true]
      rfl
  · obtain ⟨a, b, hbody, ha, hb⟩ := FLOAT_RE_split v hfl
    obtain ⟨hane, haall⟩ := digitsNonempty_all a ha
    obtain ⟨_, hball⟩ := digitsNonempty_all b hb
    have hstripv := FLOAT_RE_strip v hfl
    unfold pyFloat
    rw [hstripv]
    dsimp only
    have hcond : ('.' :: b : Str).head? = some '.' ∧ (('.' :: b : Str).drop 1).all Char.isDigit = true
        ∧ ¬ (a.isEmpty = true ∧ (('.' :: b : Str).drop 1).isEmpty = true) := by
      refine ⟨rfl, List.all_eq_true.mpr hball, ?_⟩
      intro hcon
      rw [isEmpty_false_of_ne a hane] at hcon
      exact Bool.false_ne_true hcon.1
    by_cases hd : v.head? = some '-'
    · have hfb : floatBody v = v.drop 1 := by
        unfold floatBody
        rw [if_pos hd]
      have hsp : ((v.drop 1).span Char.isDigit) = (a, '.' :: b) := by
        rw [← hfb, hbody]
        exact span_digits_dot a b haall
      rw [if_pos hd]
      dsimp only
      rw [hsp]
      dsimp only
      rw [show (('.' :: b : Str)).isEmpty = false from rfl, if_neg Bool.false_ne_true,
        if_pos hcond]
      rfl
    · have hfb : floatBody v = v := by
        unfold floatBody
        rw [if_neg hd]
      have hveq : v = a ++ '.' :: b := by
        rw [← hfb, hbody]
      have hplus : ¬ v.head? = some '+' := by
        rw [hveq]
        obtain ⟨c, cs, hacons⟩ : ∃ c cs, a = c :: cs := by
          cases a with
          | nil => exact absurd rfl hane
          | cons c cs => exact ⟨c, cs, rfl⟩
        rw [hacons, List.cons_append]
        intro he
        rw [List.head?_cons, Option.some.injEq] at he
        exact isDigit_ne_plus c (haall c (by simp [hacons])) he
      have hsp : (v.span Char.isDigit) = (a, '.' :: b) := by
        rw [hveq]
        exact span_digits_dot a b haall
      rw [if_neg hd, if_neg hplus]
      dsimp only
      rw [hsp]
      dsimp only
      rw [show (('.' :: b : Str)).isEmpty = false from rfl, if_neg Bool.false_ne_true,
        if_pos hcond]
      rfl

theorem infer_integer_all (dp : FlexParser) (values missing : List Str)
    (h : infer_column_type dp values missing = "integer".toList) :
    ((values.map pyStrip).filter (fun v => !(missing.contains v))) ≠ [] ∧
      ((values.map pyStrip).filter (fun v => !(missing.contains v))).all INT_RE = true := by
  unfold infer_column_type at h
  simp only [foldl_and_triple, Bool.true_and] at h
  by_cases h0 : ((values.map pyStrip).filter (fun v => !(missing.contains v))).isEmpty = true
  · rw [if_pos h0] at h
    exact absurd h (by decide)
  · rw [if_neg h0] at h
    refine ⟨fun hnil => h0 (by rw [hnil]; rfl), ?_⟩
    by_cases h1 : ((values.map pyStrip).filter (fun v => !(missing.contains v))).all INT_RE = true
    · exact h1
    · rw [if_neg h1] at h
      by_cases h2 : ((values.map pyStrip).filter (fun v => !(missing.contains v))).all
          (fun v => INT_RE v || FLOAT_RE v) = true
      · rw [if_pos h2] at h
        exact absurd h (by decide)
      · rw [if_neg h2] at h
        by_cases h3 : ((values.map pyStrip).filter (fun v => !(missing.contains v))).all
            (try_parse_datetime dp) = true
        · rw [if_pos h3] at h
          exact absurd h (by decide)
        · rw [if_neg h3] at h
          exact absurd h (by decide)

theorem infer_number_all (dp : FlexParser) (values missing : List Str)
    (h : infer_column_type dp values missing = "number".toList) :
    ((values.map pyStrip).filter (fun v => !(missing.contains v))) ≠ [] ∧
      ((values.map pyStrip).filter (fun v => !(missing.contains v))).all
        (fun v => INT_RE v || FLOAT_RE v) = true := by
  unfold infer_column_type at h
  simp only [foldl_and_triple, Bool.true_and] at h
  by_cases h0 : ((values.map pyStrip).filter (fun v => !(missing.contains v))).isEmpty = true
  · rw [if_pos h0] at h
    exact absurd h (by decide)
  · rw [if_neg h0] at h
    refine ⟨fun hnil => h0 (by rw [hnil]; rfl), ?_⟩
    by_cases h1 : ((values.map pyStrip).filter (fun v => !(missing.contains v))).all INT_RE = true
    · rw [if_pos h1] at h
      exact absurd h (by decide)
    · rw [if_neg h1] at h
      by_cases h2 : ((values.map pyStrip).filter (fun v => !(missing.contains v))).all
          (fun v => INT_RE v || FLOAT_RE v) = true
      · exact h2
      · rw [if_neg h2] at h
        by_cases h3 : ((values.map pyStrip).filter (fun v => !(missing.contains v))).all
            (try_parse_datetime dp) = true
        · rw [if_pos h3] at h
          exact absurd h (by decide)
        · rw [if_neg h3] at h
          exact absurd h (by decide)

theorem prunedAt_eq (header : List Str) (rows : List (List Str)) (i : Nat) :
    ((colValuesAt header rows i).map pyStrip).filter
        (fun v => !(ENRICHMENT_COMMON_MISSING.contains v))
      = prunedAt header rows i := by
  rw [pyStrip_map_self _ (colValuesAt_strip header rows i)]
  unfold prunedAt
  apply List.filter_congr
  intro v _
  cases hc : ENRICHMENT_COMMON_MISSING.contains v
  · have hvne : (v == ([] : Str)) = false := by
      cases v with
      | nil => exact absurd hc (by decide)
      | cons c cs => rfl
    rw [hvne]
    rfl
  · rfl

theorem castAll_isSome (f : Str → Option α) (l : List Str)
    (h : ∀ v ∈ l, (f v).isSome = true) :
    ∃ ys, castAll f l = some ys ∧ ys.length = l.length := by
  induction l with
  | nil => exact ⟨[], rfl, rfl⟩
  | cons x xs ih =>
    obtain ⟨ys, hys, hlen⟩ := ih (fun v hv => h v (by simp [hv]))
    have hx := h x (by simp)
    cases hfx : f x with
    | none =>
      rw [hfx] at hx
      simp at hx
    | some y =>
      refine ⟨y :: ys, ?_, by simp [hlen]⟩
      unfold castAll
      rw [hfx, hys]

theorem compute_minmax_int_some (pruned : List Str) (hne : pruned ≠ [])
    (hall : ∀ v ∈ pruned, (pyInt v).isSome = true) :
    (compute_numeric_minmax pruned "integer".toList).1.isSome = true ∧
      (compute_numeric_minmax pruned "integer".toList).2.isSome = true := by
  obtain ⟨ys, hys, hlen⟩ := castAll_isSome pyInt pruned hall
  have hie : pruned.isEmpty = false := by
    cases pruned with
    | nil => exact absurd rfl hne
    | cons p ps => rfl
  unfold compute_numeric_minmax
  rw [hie, if_neg Bool.false_ne_true, if_pos rfl, hys]
  cases pruned with
  | nil => exact absurd rfl hne
  | cons p ps =>
    cases ys with
    | nil => simp at hlen
    | cons y yr => exact ⟨rfl, rfl⟩

theorem compute_minmax_num_some (pruned : List Str) (hne : pruned ≠ [])
    (hall : ∀ v ∈ pruned, (pyFloat v).isSome = true) :
    (compute_numeric_minmax pruned "number".toList).1.isSome = true ∧
      (compute_numeric_minmax pruned "number".toList).2.isSome = true := by
  obtain ⟨ys, hys, hlen⟩ := castAll_isSome pyFloat pruned hall
  have hie : pruned.isEmpty = false := by
    cases pruned with
    | nil => exact absurd rfl hne
    | cons p ps => rfl
  unfold compute_numeric_minmax
  rw [hie, if_neg Bool.false_ne_true, if_neg (by decide), hys]
  cases pruned with
  | nil => exact absurd rfl hne
  | cons p ps =>
    cases ys with
    | nil => simp at hlen
    | cons y yr => exact ⟨rfl, rfl⟩

/-- C10: when a column is inferred `integer` (respectively `number`),
every pruned value matches the integer (integer-or-decimal) pattern, so
the numeric casts in `compute_numeric_minmax` all succeed: the pruned
list is non-empty and both returned bounds are present — the exception
branch returning absent bounds is unreachable under this precondition. -/
theorem numeric_minmax_total (dp : FlexParser) (header : List Str) (rows : List (List Str))
    (i : Nat) :
    (inferredAt dp header rows i = "integer".toList →
      prunedAt header rows i ≠ [] ∧
      (compute_numeric_minmax (prunedAt header rows i) "integer".toList).1.isSome = true ∧
      (compute_numeric_minmax (prunedAt header rows i) "integer".toList).2.isSome = true) ∧
    (inferredAt dp header rows i = "number".toList →
      prunedAt header rows i ≠ [] ∧
      (compute_numeric_minmax (prunedAt header rows i) "number".toList).1.isSome = true ∧
      (compute_numeric_minmax (prunedAt header rows i) "number".toList).2.isSome = true) := by
  constructor
  · intro h
    obtain ⟨hne, hall⟩ := infer_integer_all dp (colValuesAt header rows i)
      ENRICHMENT_COMMON_MISSING h
    rw [prunedAt_eq] at hne hall
    have hints : ∀ v ∈ prunedAt header rows i, (pyInt v).isSome = true := by
      intro v hv
      exact pyInt_isSome v (List.all_eq_true.mp hall v hv)
    exact ⟨hne, compute_minmax_int_some _ hne hints⟩
  · intro h
    obtain ⟨hne, hall⟩ := infer_number_all dp (colValuesAt header rows i)
      ENRICHMENT_COMMON_MISSING h
    rw [prunedAt_eq] at hne hall
    have hnums : ∀ v ∈ prunedAt header rows i, (pyFloat v).isSome = true := by
      intro v hv
      exact pyFloat_isSome v (List.all_eq_true.mp hall v hv)
    exact ⟨hne, compute_minmax_num_some _ hne hnums⟩

/-- Witness for C10 at one integer column and one decimal column. -/
theorem numeric_minmax_total_witness :
    ((compute_numeric_minmax (prunedAt ["a".toList] [["1".toList], ["-2".toList]] 0)
        "integer".toList).1.isSome = true) ∧
    ((compute_numeric_minmax (prunedAt ["b".toList] [["1.5".toList]] 0)
        "number".toList).1.isSome = true) :=
  ⟨((numeric_minmax_total none ["a".toList] [["1".toList], ["-2".toList]] 0).1
      (by decide)).2.1,
   ((numeric_minmax_total none ["b".toList] [["1.5".toList]] 0).2
      (by decide)).2.1⟩

/-! ## C9: the digit pre-check in the datetime cascade -/

/-- Does the optional flexible parser accept the value. -/
def flexAccepts (dp : FlexParser) (s : Str) : Bool :=
  match dp with
  | some p => (p s).isSome
  | none => false

theorem takeDigits_any_digit (n : Nat) (s : Str) (p : Nat × Str)
    (h : takeDigits n s = some p) : s.any Char.isDigit = true := by
  unfold takeDigits at h
  dsimp only at h
  split at h
  · exact absurd h (by simp)
  · rename_i hne
    cases s with
    | nil => simp at hne
    | cons c cs =>
      cases n with
      | zero => simp at hne
      | succ m =>
        by_cases hc : c.isDigit = true
        · simp [hc]
        · rw [List.take_succ_cons, List.takeWhile_cons_of_neg (by simp [hc])] at hne
          simp at hne

theorem exactDigits_any_digit (n : Nat) (hn : 0 < n) (s : Str) (p : Nat × Str)
    (h : exactDigits n s = some p) : s.any Char.isDigit = true := by
  unfold exactDigits at h
  dsimp only at h
  split at h
  · rename_i hcond
    cases s with
    | nil =>
      rw [List.take_nil] at hcond
      simp only [List.length_nil] at hcond
      omega
    | cons c cs =>
      cases n with
      | zero => omega
      | succ m =>
        have hc : c.isDigit = true := by
          have := hcond.2
          rw [List.take_succ_cons, List.all_cons, Bool.and_eq_true] at this
          exact this.1
        simp [hc]
  · exact absurd h (by simp)

theorem fromisoformat_any_digit (s : Str) (d : PyDateTime)
    (h : fromisoformat s = some d) : s.any Char.isDigit = true := by
  unfold fromisoformat at h
  split at h
  · exact absurd h (by simp)
  · rename_i y r1 heq
    exact exactDigits_any_digit 4 (by omega) s (y, r1) heq

theorem strptime_take2_digit (fmt s : Str)
    (hY : fmt.take 2 = ['%', 'Y'] ∨ fmt.take 2 = ['%', 'm'] ∨ fmt.take 2 = ['%', 'd'])
    (h : (strptime fmt s).isSome = true) : s.any Char.isDigit = true := by
  obtain ⟨c, fr, rfl, hc⟩ : ∃ c fr, fmt = '%' :: c :: fr ∧ (c = 'Y' ∨ c = 'm' ∨ c = 'd') := by
    cases fmt with
    | nil => rcases hY with hY | hY | hY <;> simp at hY
    | cons a f1 =>
      cases f1 with
      | nil => rcases hY with hY | hY | hY <;> simp at hY
      | cons b fr =>
        rcases hY with hY | hY | hY <;>
          (rw [List.take_succ_cons, List.take_succ_cons] at hY
           simp only [List.take_zero, List.cons.injEq, and_true] at hY
           exact ⟨b, fr, by rw [hY.1, hY.2], by rw [hY.2]; tauto⟩)
  rw [Option.isSome_iff_exists] at h
  obtain ⟨r, hr⟩ := h
  unfold strptime at hr
  rcases hc with rfl | rfl | rfl <;>
    (simp only [strptimeGo, if_pos rfl] at hr
     simp only [show ('Y' = 'Y') = True from by simp, show ¬ ('m' = 'Y') from by decide,
       show ¬ ('d' = 'Y') from by decide, show ('m' = 'm') = True from by simp,
       show ('d' = 'd') = True from by simp, show ¬ ('d' = 'm') from by decide,
       if_true, if_neg, ite_true, ite_false] at hr
     split at hr <;> first
       | (rename_i v rest heq
          exact takeDigits_any_digit _ s (v, rest) heq)
       | exact absurd hr (by simp))

theorem fallback_nodigit (s : Str) (hs : s.any Char.isDigit = false) :
    fallbackCascade s = false := by
  unfold fallbackCascade
  rw [Bool.or_eq_false_iff]
  constructor
  · cases hiso : fromisoformat s with
    | none => rfl
    | some d =>
      rw [fromisoformat_any_digit s d hiso] at hs
      exact absurd hs (by decide)
  · rw [List.any_eq_false]
    intro fmt hfmt
    cases hsp : (strptime fmt s).isSome with
    | false => simp
    | true =>
      exfalso
      have hY : fmt.take 2 = ['%', 'Y'] ∨ fmt.take 2 = ['%', 'm'] ∨ fmt.take 2 = ['%', 'd'] := by
        fin_cases hfmt <;> decide
      rw [strptime_take2_digit fmt s hY hsp] at hs
      exact absurd hs (by decide)

/-- C9 (amended): the digit pre-check changes no behaviour whenever the
flexible natural-language parser is unavailable or itself rejects every
digit-free string: the empty check and strip agree, and for a stripped
value without digits the ISO parse and every explicit format fail, so
both variants return false.  (The unamended claim fails when the
flexible parser is available: see the counterexample.) -/
theorem try_parse_datetime_check_equiv (dp : FlexParser)
    (hdp : ∀ s : Str, s.any Char.isDigit = false → flexAccepts dp s = false) :
    ∀ s, try_parse_datetime dp s = try_parse_datetime_nocheck dp s := by
  intro s
  unfold try_parse_datetime try_parse_datetime_nocheck
  by_cases he : s.isEmpty = true
  · rw [if_pos he, if_pos he]
  · rw [if_neg he, if_neg he]
    dsimp only
    cases hdig : (pyStrip s).any Char.isDigit with
    | true => rfl
    | false =>
      have hfb := fallback_nodigit (pyStrip s) hdig
      have hflex := hdp (pyStrip s) hdig
      cases dp with
      | none =>
        dsimp only
        rw [hfb]
        rfl
      | some p =>
        have hflex2 : (p (pyStrip s)).isSome = false := hflex
        dsimp only
        rw [hflex2, if_neg Bool.false_ne_true, hfb]
        rfl

/-- Witness for C9 at the unavailable-parser instance and a concrete
input. -/
theorem try_parse_datetime_check_equiv_witness :
    try_parse_datetime none "abc".toList = try_parse_datetime_nocheck none "abc".toList :=
  try_parse_datetime_check_equiv none (fun _ _ => rfl) "abc".toList

/-- The English month names accepted by the flexible parser model. -/
def naturalLanguageMonths : List Str :=
  (["january", "february", "march", "april", "may", "june", "july",
    "august", "september", "october", "november", "december"] : List String).map String.toList

/-- Modelled from the spec: the flexible natural-language date parser
(the optional dateutil dependency, whose code is absent from src/)
accepts natural-language date expressions; in particular a bare English
month name, in any letter case, parses to a date in that month resolved
against the current date. -/
def natural_language_date_parse (s : Str) : Option PyDateTime :=
  match naturalLanguageMonths.findIdx? (fun m => m == s.map Char.toLower) with
  | some i => some ⟨2026, i + 1, 12, 0, 0, 0⟩
  | none => none

/-- C9 counterexample: with the flexible natural-language parser
available, the digit pre-check does change behaviour — the digit-free
value `May` is rejected with the pre-check but accepted without it, so
the two functions differ. -/
theorem try_parse_datetime_check_counterexample :
    try_parse_datetime (some natural_language_date_parse) "May".toList = false ∧
      try_parse_datetime_nocheck (some natural_language_date_parse) "May".toList = true := by
  decide

/-! ## C6: the nodata token and its metadata line -/

/-- The missing literals observed in one row-major scan, in order. -/
def observedMissing (rows : List (List Str)) : List Str :=
  rows.flatten.filter (fun c => ENRICHMENT_COMMON_MISSING.contains c)

/-- First occurrences in encounter order. -/
def firstOccurrences (seen : List Str) : List Str → List Str
  | [] => []
  | x :: rest =>
    if x ∈ seen then firstOccurrences seen rest
    else x :: firstOccurrences (x :: seen) rest

/-- The nodata rule as the spec states it: the explicit override wins;
otherwise the most frequent observed missing literal, ties broken by
first encounter in the row-major scan; otherwise the empty string. -/
def nodata_spec (nodata_override : Option Str) (rows : List (List Str)) : Str :=
  match nodata_override with
  | some v => v
  | none =>
    match firstOccurrences [] (observedMissing rows) with
    | [] => []
    | u :: us =>
      us.foldl
        (fun best x =>
          if (observedMissing rows).count x > (observedMissing rows).count best then x else best) u

/-- The dict fold underlying `placeholder_counts`, over the flattened
observation list. -/
def countsFold (l : List Str) : List (Str × Nat) :=
  l.foldl (fun acc c => dictIncr c acc) []

theorem filter_fold_dictIncr (l : List Str) :
    ∀ (init : List (Str × Nat)),
      l.foldl (fun acc c => if ENRICHMENT_COMMON_MISSING.contains c then dictIncr c acc else acc)
        init
      = (l.filter (fun c => ENRICHMENT_COMMON_MISSING.contains c)).foldl
          (fun acc c => dictIncr c acc) init := by
  induction l with
  | nil =>
    intro init
    rfl
  | cons x xs ih =>
    intro init
    rw [List.foldl_cons, List.filter_cons]
    cases hx : ENRICHMENT_COMMON_MISSING.contains x
    · rw [if_neg Bool.false_ne_true, if_neg Bool.false_ne_true]
      exact ih init
    · rw [if_pos rfl, if_pos rfl, List.foldl_cons]
      exact ih (dictIncr x init)

theorem placeholder_counts_eq_countsFold (rows : List (List Str)) :
    placeholder_counts rows = countsFold (observedMissing rows) := by
  unfold placeholder_counts countsFold observedMissing
  rw [← List.foldl_flatten]
  exact filter_fold_dictIncr rows.flatten []

theorem mem_firstOccurrences (l : List Str) :
    ∀ (seen : List Str) (z : Str), z ∈ firstOccurrences seen l ↔ (z ∈ l ∧ z ∉ seen) := by
  induction l with
  | nil => simp [firstOccurrences]
  | cons x xs ih =>
    intro seen z
    unfold firstOccurrences
    by_cases hx : x ∈ seen
    · rw [if_pos hx, ih]
      constructor
      · rintro ⟨h1, h2⟩
        exact ⟨List.mem_cons_of_mem _ h1, h2⟩
      · rintro ⟨h1, h2⟩
        rcases List.mem_cons.mp h1 with rfl | h3
        · exact absurd hx h2
        · exact ⟨h3, h2⟩
    · rw [if_neg hx]
      constructor
      · intro hz
        rcases List.mem_cons.mp hz with rfl | h3
        · exact ⟨List.mem_cons_self _ _, hx⟩
        · rw [ih] at h3
          exact ⟨List.mem_cons_of_mem _ h3.1,
            fun hc => h3.2 (List.mem_cons_of_mem _ hc)⟩
      · rintro ⟨h1, h2⟩
        by_cases hzx : z = x
        · exact hzx ▸ List.mem_cons_self _ _
        · rcases List.mem_cons.mp h1 with rfl | h3
          · exact absurd rfl hzx
          · exact List.mem_cons_of_mem _ ((ih _ z).mpr
              ⟨h3, fun hc => (List.mem_cons.mp hc).elim hzx h2⟩)

theorem nodup_firstOccurrences (l : List Str) :
    ∀ (seen : List Str), (firstOccurrences seen l).Nodup := by
  induction l with
  | nil =>
    intro seen
    exact List.nodup_nil
  | cons x xs ih =>
    intro seen
    unfold firstOccurrences
    by_cases hx : x ∈ seen
    · rw [if_pos hx]
      exact ih seen
    · rw [if_neg hx]
      refine List.Nodup.cons ?_ (ih (x :: seen))
      intro hc
      exact ((mem_firstOccurrences xs (x :: seen) x).mp hc).2 (List.mem_cons_self _ _)

theorem firstOccurrences_snoc (l : List Str) :
    ∀ (seen : List Str) (x : Str),
      firstOccurrences seen (l ++ [x])
        = firstOccurrences seen l ++ (if x ∈ seen ∨ x ∈ l then [] else [x]) := by
  induction l with
  | nil =>
    intro seen x
    simp [firstOccurrences]
  | cons y ys ih =>
    intro seen x
    rw [List.cons_append]
    unfold firstOccurrences
    by_cases hy : y ∈ seen
    · rw [if_pos hy, if_pos hy, ih]
      congr 1
      have hiff : (x ∈ seen ∨ x ∈ ys) ↔ (x ∈ seen ∨ x ∈ y :: ys) := by
        constructor
        · rintro (h | h)
          · exact Or.inl h
          · exact Or.inr (List.mem_cons_of_mem _ h)
        · rintro (h | h)
          · exact Or.inl h
          · rcases List.mem_cons.mp h with rfl | h2
            · exact Or.inl hy
            · exact Or.inr h2
      rw [if_congr hiff rfl rfl]
    · rw [if_neg hy, if_neg hy, ih, List.cons_append]
      congr 2
      have hiff : (x ∈ y :: seen ∨ x ∈ ys) ↔ (x ∈ seen ∨ x ∈ y :: ys) := by
        constructor
        · rintro (h | h)
          · rcases List.mem_cons.mp h with rfl | h2
            · exact Or.inr (List.mem_cons_self _ _)
            · exact Or.inl h2
          · exact Or.inr (List.mem_cons_of_mem _ h)
        · rintro (h | h)
          · exact Or.inl (List.mem_cons_of_mem _ h)
          · rcases List.mem_cons.mp h with rfl | h2
            · exact Or.inl (List.mem_cons_self _ _)
            · exact Or.inr h2
      rw [if_congr hiff rfl rfl]

theorem dictIncr_map_mem (f : Str → Nat) (us : List Str) (x : Str)
    (hx : x ∈ us) (hnd : us.Nodup) :
    dictIncr x (us.map (fun z => (z, f z)))
      = us.map (fun z => (z, f z + if z = x then 1 else 0)) := by
  induction us with
  | nil => simp at hx
  | cons u us ih =>
    rw [List.map_cons, List.map_cons]
    unfold dictIncr
    by_cases hux : u = x
    · rw [if_pos hux]
      subst hux
      rw [if_pos rfl]
      congr 1
      apply List.map_congr_left
      intro z hz
      have hzu : ¬ z = u := fun he => (List.nodup_cons.mp hnd).1 (he ▸ hz)
      rw [if_neg hzu, Nat.add_zero]
    · rw [if_neg hux, if_neg hux, Nat.add_zero]
      congr 1
      exact ih ((List.mem_cons.mp hx).resolve_left (fun he => hux he.symm))
        (List.nodup_cons.mp hnd).2

theorem dictIncr_map_notmem (f : Str → Nat) (us : List Str) (x : Str) (hx : x ∉ us) :
    dictIncr x (us.map (fun z => (z, f z))) = us.map (fun z => (z, f z)) ++ [(x, 1)] := by
  induction us with
  | nil => rfl
  | cons u us ih =>
    rw [List.map_cons]
    unfold dictIncr
    have hux : ¬ u = x := fun he => hx (List.mem_cons.mpr (Or.inl he.symm))
    rw [if_neg hux, List.cons_append]
    congr 1
    exact ih (fun hc => hx (List.mem_cons_of_mem _ hc))

theorem countsFold_eq (l : List Str) :
    countsFold l = (firstOccurrences [] l).map (fun z => (z, l.count z)) := by
  induction l using List.reverseRecOn with
  | nil => rfl
  | append_singleton l x ih =>
    have hstep : countsFold (l ++ [x]) = dictIncr x (countsFold l) := by
      unfold countsFold
      rw [List.foldl_append]
      rfl
    rw [hstep, ih, firstOccurrences_snoc]
    by_cases hx : x ∈ l
    · have hguard : (if x ∈ ([] : List Str) ∨ x ∈ l then ([] : List Str) else [x]) = [] :=
        if_pos (Or.inr hx)
      rw [hguard, List.append_nil]
      rw [dictIncr_map_mem (fun z => l.count z) _ x
        ((mem_firstOccurrences l [] x).mpr ⟨hx, List.not_mem_nil x⟩)
        (nodup_firstOccurrences l [])]
      apply List.map_congr_left
      intro z _
      by_cases hzx : z = x
      · subst hzx
        rw [if_pos rfl, List.count_append]
        simp
      · rw [if_neg hzx, Nat.add_zero, List.count_append]
        have : List.count z [x] = 0 := by
          rw [List.count_eq_zero]
          simp [List.mem_singleton]
          exact fun he => hzx he
        rw [this, Nat.add_zero]
    · have hguard : (if x ∈ ([] : List Str) ∨ x ∈ l then ([] : List Str) else [x]) = [x] :=
        if_neg (fun hc => hc.elim (List.not_mem_nil x) hx)
      rw [hguard]
      rw [dictIncr_map_notmem (fun z => l.count z) _ x
        (fun hc => hx ((mem_firstOccurrences l [] x).mp hc).1)]
      rw [List.map_append]
      congr 1
      · apply List.map_congr_left
        intro z hz
        have hzl : z ∈ l := ((mem_firstOccurrences l [] z).mp hz).1
        have hzx : ¬ z = x := fun he => hx (he ▸ hzl)
        rw [List.count_append]
        have : List.count z [x] = 0 := by
          rw [List.count_eq_zero]
          simp [List.mem_singleton]
          exact fun he => hzx he
        rw [this, Nat.add_zero]
      · rw [List.map_singleton, List.count_append, List.count_eq_zero.mpr hx]
        simp

theorem maxCountFirst_map (f : Str → Nat) (us : List Str) :
    maxCountFirst (us.map (fun z => (z, f z)))
      = (match us with
         | [] => []
         | u :: rest => rest.foldl (fun best x => if f x > f best then x else best) u) := by
  have haux : ∀ (rest : List Str) (w : Str),
      rest.foldl (fun (best : Str × Nat) z => if f z > best.2 then (z, f z) else best) (w, f w)
        = (rest.foldl (fun best x => if f x > f best then x else best) w,
           f (rest.foldl (fun best x => if f x > f best then x else best) w)) := by
    intro rest
    induction rest with
    | nil =>
      intro w
      rfl
    | cons z zs ih =>
      intro w
      rw [List.foldl_cons, List.foldl_cons]
      dsimp only
      by_cases hz : f z > f w
      · rw [if_pos hz, if_pos hz]
        exact ih z
      · rw [if_neg hz, if_neg hz]
        exact ih w
  cases us with
  | nil => rfl
  | cons u rest =>
    show (List.foldl (fun (best : Str × Nat) p => if p.2 > best.2 then p else best) (u, f u)
        (List.map (fun z => (z, f z)) rest)).1
      = rest.foldl (fun best x => if f x > f best then x else best) u
    rw [List.foldl_map]
    dsimp only
    rw [haux]

/-- The source nodata resolution equals the spec rule. -/
theorem resolve_nodata_eq_spec (nodata_override : Option Str) (rows : List (List Str)) :
    resolve_nodata nodata_override rows = nodata_spec nodata_override rows := by
  cases nodata_override with
  | some v => rfl
  | none =>
    unfold resolve_nodata nodata_spec
    rw [placeholder_counts_eq_countsFold, countsFold_eq, maxCountFirst_map]

/-- C6 (amended): the produced METADATA block always carries a `nodata`
line — the builder only omits it for a `None` value, which
`make_icsv_from_csv` never passes — and the token on that line is
resolved exactly as the spec says: explicit override first, else the
most frequent observed missing literal with first-encountered
tie-break, else the empty string (yielding a `nodata = ` line with an
empty value rather than no line). -/
theorem nodata_line_always (dp : FlexParser) (header : List Str) (rows : List (List Str))
    (icsv_delim : Char) (nodata_override : Option Str) (application_profile : Option Str)
    (creation_date : Str) :
    ('#' :: ' ' :: ("nodata = ".toList ++ resolve_nodata nodata_override rows))
        ∈ make_icsv_from_csv_lines dp header rows icsv_delim nodata_override
            application_profile creation_date ∧
      resolve_nodata nodata_override rows = nodata_spec nodata_override rows := by
  refine ⟨?_, resolve_nodata_eq_spec nodata_override rows⟩
  have hmem : ("nodata = ".toList ++ resolve_nodata nodata_override rows)
      ∈ build_icsv_metadata_section [icsv_delim] header rows.length
          (some (resolve_nodata nodata_override rows)) (detect_geometry_hint header).1
          (detect_geometry_hint header).2 application_profile creation_date := by
    unfold build_icsv_metadata_section
    refine List.mem_append_left _ (List.mem_append_left _ (List.mem_append_left _
      (List.mem_append_right _ ?_)))
    exact List.mem_singleton_self _
  simp only [make_icsv_from_csv_lines, write_icsv_lines]
  refine List.mem_append_left _ (List.mem_append_left _ (List.mem_append_left _
    (List.mem_append_left _ (List.mem_append_left _ (List.mem_append_left _
    (List.mem_append_left _ (List.mem_append_right _ ?_)))))))
  exact List.mem_map.mpr ⟨_, hmem, rfl⟩

/-- C6 counterexample: for a CSV with no observed missing tokens and no
override, the resolved token is empty yet the `nodata` line is still
present, refuting the only-if direction of the claim. -/
theorem nodata_line_counterexample :
    resolve_nodata none [["1".toList]] = [] ∧
      ('#' :: ' ' :: "nodata = ".toList)
        ∈ make_icsv_from_csv_lines none ["a".toList] [["1".toList]] '|' none none "t".toList := by
  decide

/-! ## C3: delimiter resolution for reading and for the output choice -/

/-- A ten-line file on which the two sniffing samples disagree: the
first five lines carry a consistent semicolon, the last five no
delimiter at all. -/
def sniffExampleFile : List Str :=
  ["a;b".toList, "1;2".toList, "3;4".toList, "5;6".toList, "7;8".toList,
   "foo".toList, "bar".toList, "baz".toList, "qux".toList, "zap".toList]

/-- C3 (amended): the output delimiter is the bar exactly when the
delimiter detected for the output choice is the comma, and is that
detected delimiter otherwise; but the code resolves the input delimiter
twice — a ten-line sample for parsing the rows, a five-line sample for
the output choice — and the two resolutions coincide only when the user
forces a delimiter or the file has at most five lines. -/
theorem delimiter_resolution (sniff : Str → Option Char) (fileLines : List Str)
    (user_delimiter : Option Char) :
    make_icsv_delim sniff fileLines user_delimiter
        = (if make_detected_delim sniff fileLines user_delimiter = ',' then '|'
           else make_detected_delim sniff fileLines user_delimiter) ∧
      (∀ d, user_delimiter = some d →
        load_delimiter sniff fileLines user_delimiter
          = make_detected_delim sniff fileLines user_delimiter) ∧
      (fileLines.length ≤ 5 →
        load_delimiter sniff fileLines user_delimiter
          = make_detected_delim sniff fileLines user_delimiter) := by
  refine ⟨rfl, ?_, ?_⟩
  · intro d hd
    subst hd
    rfl
  · intro h5
    cases user_delimiter with
    | some d => rfl
    | none =>
      show detect_delimiter sniff (sampleOf 10 fileLines)
        = detect_delimiter sniff (sampleOf 5 fileLines)
      unfold sampleOf
      rw [List.take_of_length_le h5, List.take_of_length_le (le_trans h5 (by norm_num))]

theorem delimiter_resolution_witness :
    load_delimiter spec_sniffer ["a;b".toList] (some ';')
        = make_detected_delim spec_sniffer ["a;b".toList] (some ';') ∧
      load_delimiter spec_sniffer ["a;b".toList] none
        = make_detected_delim spec_sniffer ["a;b".toList] none :=
  ⟨(delimiter_resolution spec_sniffer ["a;b".toList] (some ';')).2.1 ';' rfl,
   (delimiter_resolution spec_sniffer ["a;b".toList] none).2.2 (by decide)⟩

/-- C3 counterexample: on `sniffExampleFile` with no forced delimiter,
the rows are parsed with the comma fallback (the ten-line sample fails
to sniff) while the output choice detects the semicolon, so no single
resolved input delimiter governs both, and the recorded
`field_delimiter` is a semicolon the row parse never used. -/
theorem delimiter_resolution_counterexample :
    load_delimiter spec_sniffer sniffExampleFile none = ',' ∧
      make_detected_delim spec_sniffer sniffExampleFile none = ';' ∧
      make_icsv_delim spec_sniffer sniffExampleFile none = ';' := by
  decide

/-! ## C5: the metadata gate aborts validation -/

theorem validate_gate_eq (ext : ExtValidator) (infile : Str) (lines : List Str)
    (out : Option Str)
    (h : check_metadata (parse_icsv_metadata lines).1 (parse_icsv_metadata lines).2 ≠ []) :
    validate_icsv ext infile lines out
      = { valid := false,
          report_path := match out with
            | some r => r
            | none => strReplace ".icsv".toList "_data_report.txt".toList infile,
          meta_report := (check_metadata (parse_icsv_metadata lines).1
              (parse_icsv_metadata lines).2).map (fun e => "ERROR: ".toList ++ e)
            ++ [[], "Please fix metadata issues above.".toList],
          data_report :=
            ["Validation aborted due to metadata errors. See metadata report.".toList] } := by
  have hne : ¬ (check_metadata (parse_icsv_metadata lines).1
      (parse_icsv_metadata lines).2).isEmpty = true := by
    cases hc : check_metadata (parse_icsv_metadata lines).1 (parse_icsv_metadata lines).2 with
    | nil => exact absurd hc h
    | cons a l => exact Bool.false_ne_true
  unfold validate_icsv
  dsimp only
  rw [if_pos hne, if_pos hne]

theorem flatMap_inconsistent_nil (fs : List Str) :
    ∀ (l : List (Str × List Str)),
      (∀ p ∈ l, p.1 = "fields".toList ∨ p.2.isEmpty = true ∨ p.2.length = fs.length) →
      (l.flatMap fun p =>
          if p.1 ≠ "fields".toList ∧ ¬ p.2.isEmpty ∧ p.2.length ≠ fs.length then
            [msg_inconsistent p.1 fs.length p.2.length]
          else []) = [] := by
  intro l
  induction l with
  | nil =>
    intro _
    rfl
  | cons x rest ih =>
    intro hrest
    rw [List.flatMap_cons]
    have hx : ¬ (x.1 ≠ "fields".toList ∧ ¬ x.2.isEmpty ∧ x.2.length ≠ fs.length) := by
      rcases hrest x (List.mem_cons_self _ _) with h | h | h
      · exact fun hc => hc.1 h
      · exact fun hc => hc.2.1 h
      · exact fun hc => hc.2.2 h
    rw [if_neg hx, List.nil_append]
    exact ih (fun p hp => hrest p (List.mem_cons_of_mem _ hp))

theorem flatMap_inconsistent_single (fs ts : List Str) (hts : ts.isEmpty = false)
    (hlen : ts.length ≠ fs.length) :
    ∀ (l : List (Str × List Str)),
      List.filter (fun p => p.1 == "types".toList) l = [("types".toList, ts)] →
      (∀ p ∈ l, ¬ p.1 = "types".toList →
        p.1 = "fields".toList ∨ p.2.isEmpty = true ∨ p.2.length = fs.length) →
      (l.flatMap fun p =>
          if p.1 ≠ "fields".toList ∧ ¬ p.2.isEmpty ∧ p.2.length ≠ fs.length then
            [msg_inconsistent p.1 fs.length p.2.length]
          else []) = [msg_inconsistent "types".toList fs.length ts.length] := by
  intro l
  induction l with
  | nil =>
    intro hfilter _
    exact absurd hfilter (by simp)
  | cons x rest ih =>
    intro hfilter hrest
    rw [List.flatMap_cons]
    by_cases hx : x.1 = "types".toList
    · have hpx : (x.1 == "types".toList) = true := by
        rw [beq_iff_eq]
        exact hx
      rw [List.filter_cons, if_pos hpx] at hfilter
      injection hfilter with h1 h2
      subst h1
      dsimp only
      rw [if_pos ⟨by decide, fun hc => absurd hc (by rw [hts]; exact Bool.false_ne_true), hlen⟩]
      have hnil : (rest.flatMap fun p =>
          if p.1 ≠ "fields".toList ∧ ¬ p.2.isEmpty ∧ p.2.length ≠ fs.length then
            [msg_inconsistent p.1 fs.length p.2.length]
          else []) = [] := by
        refine flatMap_inconsistent_nil fs rest ?_
        intro p hp
        have hpt : ¬ (p.1 == "types".toList) = true := (List.filter_eq_nil_iff.mp h2) p hp
        have hpt2 : ¬ p.1 = "types".toList := fun he => hpt (by rw [beq_iff_eq]; exact he)
        exact hrest p (List.mem_cons_of_mem _ hp) hpt2
      rw [hnil, List.append_nil]
    · have hpx : (x.1 == "types".toList) = false := beq_eq_false_iff_ne.mpr hx
      rw [List.filter_cons, if_neg (by rw [hpx]; exact Bool.false_ne_true)] at hfilter
      have hfx : ¬ (x.1 ≠ "fields".toList ∧ ¬ x.2.isEmpty ∧ x.2.length ≠ fs.length) := by
        rcases hrest x (List.mem_cons_self _ _) hx with h | h | h
        · exact fun hc => hc.1 h
        · exact fun hc => hc.2.1 h
        · exact fun hc => hc.2.2 h
      rw [if_neg hfx, List.nil_append]
      exact ih hfilter (fun p hp => hrest p (List.mem_cons_of_mem _ hp))

/-- C5: whenever the metadata gate reports an error, validate_icsv
aborts — it returns invalid with an outcome that does not depend on the
external validator at all (so the data section is never validated), its
metadata report lists each error on its own line behind an ERROR prefix
followed by a blank line and the remediation hint, and its data report
is the abort notice; moreover, for a well-formed METADATA block whose
FIELDS carry exactly one types list that is non-empty and of a length
different from fields, while every other list is absent, empty or of
matching length, the gate reports exactly one inconsistency error. -/
theorem metadata_gate_abort :
    (∀ (ext ext2 : ExtValidator) (infile : Str) (lines : List Str) (out : Option Str),
        check_metadata (parse_icsv_metadata lines).1 (parse_icsv_metadata lines).2 ≠ [] →
        validate_icsv ext infile lines out = validate_icsv ext2 infile lines out ∧
          (validate_icsv ext infile lines out).valid = false ∧
          (validate_icsv ext infile lines out).meta_report
            = (check_metadata (parse_icsv_metadata lines).1
                (parse_icsv_metadata lines).2).map (fun e => "ERROR: ".toList ++ e)
              ++ [[], "Please fix metadata issues above.".toList] ∧
          (validate_icsv ext infile lines out).data_report
            = ["Validation aborted due to metadata errors. See metadata report.".toList]) ∧
    (∀ (metadata : List (Str × Str)) (fields_meta : List (Str × List Str)) (fs ts : List Str),
        (∃ v, List.lookup "field_delimiter".toList metadata = some v ∧ v.isEmpty = false) →
        List.lookup "fields".toList fields_meta = some fs →
        List.filter (fun p => p.1 == "types".toList) fields_meta = [("types".toList, ts)] →
        ts.isEmpty = false →
        ts.length ≠ fs.length →
        (∀ p ∈ fields_meta, ¬ p.1 = "types".toList →
          p.1 = "fields".toList ∨ p.2.isEmpty = true ∨ p.2.length = fs.length) →
        check_metadata metadata fields_meta
          = [msg_inconsistent "types".toList fs.length ts.length]) := by
  constructor
  · intro ext ext2 infile lines out h
    refine ⟨?_, ?_, ?_, ?_⟩
    · rw [validate_gate_eq ext infile lines out h, validate_gate_eq ext2 infile lines out h]
    · rw [validate_gate_eq ext infile lines out h]
    · rw [validate_gate_eq ext infile lines out h]
    · rw [validate_gate_eq ext infile lines out h]
  · intro metadata fields_meta fs ts hdelim hfields hfilter hts hlen hrest
    obtain ⟨v, hv, hve⟩ := hdelim
    unfold check_metadata
    dsimp only
    rw [hv, hfields]
    dsimp only
    rw [if_neg (by rw [hve]; exact Bool.false_ne_true), List.nil_append]
    exact flatMap_inconsistent_single fs ts hts hlen fields_meta hfilter hrest

/-- An external validator that always succeeds. -/
def extOkAll : ExtValidator := fun _ _ _ => .ok { valid := true, issues := [] }

/-- An external validator that always fails. -/
def extBoom : ExtValidator := fun _ _ _ => .error "boom".toList

/-- An iCSV whose types list is shorter than its fields list. -/
def badIcsvLines : List Str :=
  ["# iCSV 1.0 UTF-8".toList, "# [METADATA]".toList, "# field_delimiter = |".toList,
   "# [FIELDS]".toList, "# fields = a|b|c".toList, "# types = integer|number".toList,
   "# [DATA]".toList, "a|b|c".toList]

theorem metadata_gate_abort_witness :
    (validate_icsv extOkAll "x.icsv".toList badIcsvLines none
        = validate_icsv extBoom "x.icsv".toList badIcsvLines none ∧
      (validate_icsv extOkAll "x.icsv".toList badIcsvLines none).valid = false ∧
      (validate_icsv extOkAll "x.icsv".toList badIcsvLines none).meta_report
        = (check_metadata (parse_icsv_metadata badIcsvLines).1
            (parse_icsv_metadata badIcsvLines).2).map (fun e => "ERROR: ".toList ++ e)
          ++ [[], "Please fix metadata issues above.".toList] ∧
      (validate_icsv extOkAll "x.icsv".toList badIcsvLines none).data_report
        = ["Validation aborted due to metadata errors. See metadata report.".toList]) ∧
    check_metadata [("field_delimiter".toList, "|".toList)]
        [("fields".toList, ["a".toList, "b".toList]), ("types".toList, ["integer".toList])]
      = [msg_inconsistent "types".toList 2 1] :=
  ⟨metadata_gate_abort.1 extOkAll extBoom "x.icsv".toList badIcsvLines none (by decide),
   metadata_gate_abort.2 [("field_delimiter".toList, "|".toList)]
     [("fields".toList, ["a".toList, "b".toList]), ("types".toList, ["integer".toList])]
     ["a".toList, "b".toList] ["integer".toList]
     ⟨"|".toList, by decide, by decide⟩ (by decide) (by decide) rfl (by decide) (by decide)⟩

/-! ## C2: helper lemmas about stripping around the key–value separator -/

theorem takeWhile_append_stop (p : Char → Bool) (A : List Char) (b : Char) (W : List Char)
    (hA : ∀ a ∈ A, p a = true) (hb : p b = false) :
    (A ++ b :: W).takeWhile p = A := by
  induction A with
  | nil => simp [List.takeWhile_cons, hb]
  | cons x xs ih =>
    rw [List.cons_append, List.takeWhile_cons, hA x (List.mem_cons_self _ _), if_pos rfl,
      ih (fun a ha => hA a (List.mem_cons_of_mem _ ha))]

theorem dropWhile_append_stop (p : Char → Bool) (A : List Char) (b : Char) (W : List Char)
    (hA : ∀ a ∈ A, p a = true) (hb : p b = false) :
    (A ++ b :: W).dropWhile p = b :: W := by
  induction A with
  | nil => simp [List.dropWhile_cons, hb]
  | cons x xs ih =>
    rw [List.cons_append, List.dropWhile_cons_of_pos (hA x (List.mem_cons_self _ _)),
      ih (fun a ha => hA a (List.mem_cons_of_mem _ ha))]

theorem pyLstrip_eq_self_of_head (s : Str)
    (h : ∀ c, s.head? = some c → pyIsSpace c = false) : pyLstrip s = s := by
  cases s with
  | nil => rfl
  | cons x xs => exact List.dropWhile_cons_of_neg (by rw [h x rfl]; exact Bool.false_ne_true)

theorem pyStrip_head_not_space (s : Str) (c : Char) (hc : (pyStrip s).head? = some c) :
    pyIsSpace c = false := by
  unfold pyStrip at hc
  have h2 := pyRstrip_head? _ _ hc
  have h3 := pyLstrip_head_not_space s c h2
  cases h : pyIsSpace c with
  | false => rfl
  | true => exact absurd h h3

theorem pyStrip_getLast_not_space (s : Str) (c : Char)
    (hc : (pyStrip s).getLast? = some c) : pyIsSpace c = false := by
  unfold pyStrip pyRstrip at hc
  rw [List.getLast?_reverse] at hc
  have h3 := pyLstrip_head_not_space (pyLstrip s).reverse c hc
  cases h : pyIsSpace c with
  | false => rfl
  | true => exact absurd h h3

theorem pyLstrip_eq_of_strip (s : Str) (h : pyStrip s = s) : pyLstrip s = s := by
  have hsuf : List.IsSuffix (pyLstrip s) s := List.dropWhile_suffix pyIsSpace
  refine List.IsSuffix.eq_of_length hsuf ?_
  have h1 : (pyStrip s).length ≤ (pyLstrip s).length := by
    unfold pyStrip pyRstrip
    rw [List.length_reverse]
    calc (((pyLstrip s).reverse.dropWhile pyIsSpace)).length
        ≤ (pyLstrip s).reverse.length := (List.dropWhile_suffix pyIsSpace).length_le
      _ = (pyLstrip s).length := List.length_reverse _
  have h2 : (pyLstrip s).length ≤ s.length := (List.dropWhile_suffix pyIsSpace).length_le
  rw [h] at h1
  exact Nat.le_antisymm h2 h1

theorem pyRstrip_eq_of_strip (s : Str) (h : pyStrip s = s) : pyRstrip s = s := by
  have h1 : pyStrip s = pyRstrip s := by
    unfold pyStrip
    rw [pyLstrip_eq_of_strip s h]
  rw [← h1, h]

theorem dropWhile_reverse_eq_of_rstrip (s : Str) (h : pyRstrip s = s) :
    s.reverse.dropWhile pyIsSpace = s.reverse := by
  unfold pyRstrip at h
  have := congrArg List.reverse h
  rwa [List.reverse_reverse] at this

theorem rstrip_append_nonspace (X : Str) (c : Char) (Z : Str) (hc : pyIsSpace c = false) :
    pyRstrip (X ++ c :: Z) = X ++ c :: pyRstrip Z := by
  unfold pyRstrip
  rw [List.reverse_append, List.reverse_cons, List.append_assoc, List.singleton_append,
    List.dropWhile_append]
  cases he : (Z.reverse.dropWhile pyIsSpace).isEmpty with
  | true =>
    rw [if_pos rfl, List.dropWhile_cons_of_neg (by rw [hc]; exact Bool.false_ne_true),
      List.reverse_cons, List.reverse_reverse, List.isEmpty_iff.mp he]
    rfl
  | false =>
    rw [if_neg Bool.false_ne_true, List.reverse_append, List.reverse_cons,
      List.reverse_reverse, List.append_assoc, List.singleton_append]

theorem rstrip_cons_keep (x : Char) (V : Str) (h : pyRstrip V = V) (hne : V ≠ []) :
    pyRstrip (x :: V) = x :: V := by
  unfold pyRstrip
  rw [List.reverse_cons, List.dropWhile_append, dropWhile_reverse_eq_of_rstrip V h]
  have hie : V.reverse.isEmpty = false := by
    cases hv : V.reverse with
    | nil => exact absurd (List.reverse_eq_nil_iff.mp hv) hne
    | cons a l => rfl
  rw [hie, if_neg Bool.false_ne_true, List.reverse_append, List.reverse_reverse]
  rfl

theorem pyStrip_cons_space (s : Str) : pyStrip (' ' :: s) = pyStrip s := by
  unfold pyStrip pyLstrip
  rw [List.dropWhile_cons_of_pos (by decide)]

theorem mem_pyStrip (c : Char) (hc : pyIsSpace c = false) (s : Str) (hs : c ∈ s) :
    c ∈ pyStrip s := by
  have h1 : c ∈ pyLstrip s := by
    have hsplit : c ∈ s.takeWhile pyIsSpace ++ s.dropWhile pyIsSpace := by
      rw [List.takeWhile_append_dropWhile _ _]
      exact hs
    rcases List.mem_append.mp hsplit with h | h
    · exact absurd (List.mem_takeWhile_imp h) (by rw [hc]; exact Bool.false_ne_true)
    · exact h
  unfold pyStrip pyRstrip
  rw [List.mem_reverse]
  have h2 : c ∈ (pyLstrip s).reverse := List.mem_reverse.mpr h1
  have hsplit : c ∈ (pyLstrip s).reverse.takeWhile pyIsSpace
      ++ (pyLstrip s).reverse.dropWhile pyIsSpace := by
    rw [List.takeWhile_append_dropWhile _ _]
    exact h2
  rcases List.mem_append.mp hsplit with h | h
  · exact absurd (List.mem_takeWhile_imp h) (by rw [hc]; exact Bool.false_ne_true)
  · exact h

theorem strip_append_space (K : Str) (hK : pyStrip K = K) (hne : K ≠ []) :
    pyStrip (K ++ [' ']) = K := by
  have hlast : pyRstrip (K ++ [' ']) = K := by
    unfold pyRstrip
    rw [List.reverse_append, List.reverse_singleton, List.singleton_append,
      List.dropWhile_cons_of_pos (by decide),
      dropWhile_reverse_eq_of_rstrip K (pyRstrip_eq_of_strip K hK), List.reverse_reverse]
  have hhead : pyLstrip (K ++ [' ']) = K ++ [' '] := by
    refine pyLstrip_eq_self_of_head _ ?_
    intro c hc
    rw [List.head?_append] at hc
    cases hk : K.head? with
    | none => exact absurd (List.head?_eq_none_iff.mp hk) hne
    | some k =>
      rw [hk] at hc
      have : k = c := by
        have : some k = some c := hc
        exact Option.some.inj this
      subst this
      have : (pyStrip K).head? = some k := by rw [hK]; exact hk
      exact pyStrip_head_not_space K k this
  unfold pyStrip
  rw [hhead, hlast]

theorem strip_rstrip_space_cons (V : Str) (hV : pyStrip V = V) :
    pyStrip (pyRstrip (' ' :: V)) = V := by
  cases V with
  | nil => decide
  | cons v vs =>
    rw [rstrip_cons_keep ' ' (v :: vs) (pyRstrip_eq_of_strip _ hV) (List.cons_ne_nil _ _),
      pyStrip_cons_space]
    exact hV

theorem kv_content (K V : Str) (hK : pyStrip K = K) (hKne : K ≠ []) :
    pyStrip ((('#' :: ' ' :: (K ++ " = ".toList ++ V))).dropWhile (· = '#'))
      = (K ++ [' ']) ++ '=' :: pyRstrip (' ' :: V) := by
  rw [List.dropWhile_cons_of_pos (by decide), List.dropWhile_cons_of_neg (by decide),
    pyStrip_cons_space]
  have hassoc : K ++ " = ".toList ++ V = (K ++ [' ']) ++ '=' :: (' ' :: V) := by
    rw [List.append_assoc, List.append_assoc]
    rfl
  rw [hassoc]
  unfold pyStrip
  have hlstr : pyLstrip ((K ++ [' ']) ++ '=' :: (' ' :: V)) = (K ++ [' ']) ++ '=' :: (' ' :: V) := by
    refine pyLstrip_eq_self_of_head _ ?_
    intro c hc
    rw [List.head?_append, List.head?_append] at hc
    cases hk : K.head? with
    | none => exact absurd (List.head?_eq_none_iff.mp hk) hKne
    | some k =>
      rw [hk] at hc
      have hkc : some k = some c := hc
      have hk2 : k = c := Option.some.inj hkc
      have h2 : (pyStrip K).head? = some k := by rw [hK]; exact hk
      rw [← hk2]
      exact pyStrip_head_not_space K k h2
  rw [hlstr]
  exact rstrip_append_nonspace (K ++ [' ']) '=' (' ' :: V) (by decide)

theorem go_intro_line (rest : List Str) (md : List (Str × Str)) (fm : List (Str × List Str)) :
    parse_icsv_go ("# iCSV 1.0 UTF-8".toList :: rest) .noSec md fm
      = parse_icsv_go rest .noSec md fm := by
  conv_lhs => unfold parse_icsv_go
  rw [if_neg (by decide), if_neg (by decide), if_neg (by decide), if_neg (by decide)]

theorem go_meta_marker (rest : List Str) (sec : Sec) (md : List (Str × Str))
    (fm : List (Str × List Str)) :
    parse_icsv_go ("# [METADATA]".toList :: rest) sec md fm
      = parse_icsv_go rest .metadataSec md fm := by
  conv_lhs => unfold parse_icsv_go
  rw [if_pos (by decide)]

theorem go_fields_marker (rest : List Str) (sec : Sec) (md : List (Str × Str))
    (fm : List (Str × List Str)) :
    parse_icsv_go ("# [FIELDS]".toList :: rest) sec md fm
      = parse_icsv_go rest .fieldsSec md fm := by
  conv_lhs => unfold parse_icsv_go
  rw [if_neg (by decide), if_pos (by decide)]

theorem go_data_marker (rest : List Str) (sec : Sec) (md : List (Str × Str))
    (fm : List (Str × List Str)) :
    parse_icsv_go ("# [DATA]".toList :: rest) sec md fm = (md, fm) := by
  conv_lhs => unfold parse_icsv_go
  rw [if_neg (by decide), if_neg (by decide), if_pos (by decide)]

theorem go_blank (rest : List Str) (sec : Sec) (md : List (Str × Str))
    (fm : List (Str × List Str)) :
    parse_icsv_go (([] : Str) :: rest) sec md fm = parse_icsv_go rest sec md fm := by
  conv_lhs => unfold parse_icsv_go
  rw [if_neg (by decide), if_neg (by decide), if_neg (by decide),
    if_neg (fun hc => Bool.false_ne_true hc.1)]

theorem go_kv_step (sec : Sec) (hsec : ¬ sec = Sec.noSec) (K V : Str) (rest : List Str)
    (md : List (Str × Str)) (fm : List (Str × List Str))
    (hK : pyStrip K = K) (hKne : K ≠ []) (hKeq : ¬ '=' ∈ K) (hV : pyStrip V = V) :
    parse_icsv_go (('#' :: ' ' :: (K ++ " = ".toList ++ V)) :: rest) sec md fm
      = match sec with
        | Sec.metadataSec => parse_icsv_go rest sec (dictInsert K V md) fm
        | _ => parse_icsv_go rest sec md (dictInsert K ((V.splitOn '|').map pyStrip) fm) := by
  have hmem : '=' ∈ pyStrip ('#' :: ' ' :: (K ++ " = ".toList ++ V)) := by
    refine mem_pyStrip '=' (by decide) _ ?_
    exact List.mem_cons_of_mem _ (List.mem_cons_of_mem _
      (List.mem_append.mpr (Or.inl (List.mem_append.mpr (Or.inr (by decide))))))
  have hcontent := kv_content K V hK hKne
  have hcont : (((K ++ [' ']) ++ '=' :: pyRstrip (' ' :: V))).contains '=' = true :=
    List.elem_eq_true_of_mem (List.mem_append.mpr (Or.inr (List.mem_cons_self _ _)))
  have hAgood : ∀ a ∈ K ++ [' '], (fun c => decide (c ≠ '=')) a = true := by
    intro a ha
    rcases List.mem_append.mp ha with h | h
    · simp only [decide_eq_true_eq]
      exact fun he => hKeq (he ▸ h)
    · cases List.mem_singleton.mp h
      decide
  have hkey : pyStrip ((((K ++ [' ']) ++ '=' :: pyRstrip (' ' :: V))).takeWhile (· ≠ '='))
      = K := by
    rw [takeWhile_append_stop _ _ _ _ hAgood (by decide)]
    exact strip_append_space K hK hKne
  have hval : pyStrip (((((K ++ [' ']) ++ '=' :: pyRstrip (' ' :: V))).dropWhile
        (· ≠ '=')).drop 1) = V := by
    rw [dropWhile_append_stop _ _ _ _ hAgood (by decide)]
    exact strip_rstrip_space_cons V hV
  conv_lhs => unfold parse_icsv_go
  rw [if_neg (fun he => absurd (he ▸ hmem) (by decide)),
    if_neg (fun he => absurd (he ▸ hmem) (by decide)),
    if_neg (fun he => absurd (he ▸ hmem) (by decide)),
    if_pos ⟨rfl, hsec⟩]
  dsimp only
  rw [hcontent, if_pos hcont, hkey, hval]
  cases sec <;> rfl

theorem go_meta_block : ∀ (entries : List (Str × Str)) (rest : List Str)
    (md : List (Str × Str)) (fm : List (Str × List Str)),
    (∀ p ∈ entries, pyStrip p.1 = p.1 ∧ p.1 ≠ [] ∧ ¬ '=' ∈ p.1 ∧ pyStrip p.2 = p.2) →
    parse_icsv_go ((entries.map (fun p => '#' :: ' ' :: (p.1 ++ " = ".toList ++ p.2))) ++ rest)
        Sec.metadataSec md fm
      = parse_icsv_go rest Sec.metadataSec
          (entries.foldl (fun acc p => dictInsert p.1 p.2 acc) md) fm := by
  intro entries
  induction entries with
  | nil =>
    intro rest md fm _
    rfl
  | cons e es ih =>
    intro rest md fm hgood
    obtain ⟨h1, h2, h3, h4⟩ := hgood e (List.mem_cons_self _ _)
    rw [List.map_cons, List.cons_append,
      go_kv_step Sec.metadataSec (by decide) e.1 e.2 _ md fm h1 h2 h3 h4]
    exact ih _ _ _ (fun p hp => hgood p (List.mem_cons_of_mem _ hp))

theorem go_fields_block : ∀ (entries : List (Str × Str)) (rest : List Str)
    (md : List (Str × Str)) (fm : List (Str × List Str)),
    (∀ p ∈ entries, pyStrip p.1 = p.1 ∧ p.1 ≠ [] ∧ ¬ '=' ∈ p.1 ∧ pyStrip p.2 = p.2) →
    parse_icsv_go ((entries.map (fun p => '#' :: ' ' :: (p.1 ++ " = ".toList ++ p.2))) ++ rest)
        Sec.fieldsSec md fm
      = parse_icsv_go rest Sec.fieldsSec md
          (entries.foldl
            (fun acc p => dictInsert p.1 ((p.2.splitOn '|').map pyStrip) acc) fm) := by
  intro entries
  induction entries with
  | nil =>
    intro rest md fm _
    rfl
  | cons e es ih =>
    intro rest md fm hgood
    obtain ⟨h1, h2, h3, h4⟩ := hgood e (List.mem_cons_self _ _)
    rw [List.map_cons, List.cons_append,
      go_kv_step Sec.fieldsSec (by decide) e.1 e.2 _ md fm h1 h2 h3 h4]
    exact ih _ _ _ (fun p hp => hgood p (List.mem_cons_of_mem _ hp))

theorem dictInsert_append_fresh {α : Type} (k : Str) (v : α) :
    ∀ (A : List (Str × α)), (∀ q ∈ A, ¬ q.1 = k) → dictInsert k v A = A ++ [(k, v)] := by
  intro A
  induction A with
  | nil =>
    intro _
    rfl
  | cons q qs ih =>
    intro h
    obtain ⟨k1, v1⟩ := q
    have hne : ¬ k1 = k := h (k1, v1) (List.mem_cons_self _ _)
    show (if k1 = k then (k, v) :: qs else (k1, v1) :: dictInsert k v qs) = _
    rw [if_neg hne, List.cons_append]
    exact congrArg _ (ih (fun q hq => h q (List.mem_cons_of_mem _ hq)))

theorem foldl_dictInsert_fresh {α : Type} :
    ∀ (entries : List (Str × α)) (A : List (Str × α)),
      (entries.map Prod.fst).Nodup →
      (∀ p ∈ entries, ∀ q ∈ A, ¬ q.1 = p.1) →
      entries.foldl (fun acc p => dictInsert p.1 p.2 acc) A = A ++ entries := by
  intro entries
  induction entries with
  | nil =>
    intro A _ _
    rw [List.append_nil]
    rfl
  | cons e es ih =>
    intro A hnd hfresh
    rw [List.map_cons] at hnd
    have hnd1 := (List.nodup_cons.mp hnd).1
    have hnd2 := (List.nodup_cons.mp hnd).2
    have hside : ∀ p ∈ es, ∀ q ∈ A ++ [e], ¬ q.1 = p.1 := by
      intro p hp q hq
      rcases List.mem_append.mp hq with h | h
      · exact hfresh p (List.mem_cons_of_mem _ hp) q h
      · cases List.mem_singleton.mp h
        intro he
        exact hnd1 (he ▸ List.mem_map_of_mem Prod.fst hp)
    have hstep := dictInsert_append_fresh e.1 e.2 A
      (fun q hq => hfresh e (List.mem_cons_self _ _) q hq)
    rw [List.foldl_cons, hstep, ih (A ++ [e]) hnd2 hside, List.append_assoc]
    rfl

/-- The metadata key–value pairs of `build_icsv_metadata_section`, in
emission order. -/
def metaEntries (field_delimiter : Str) (header : List Str) (rows_count : Nat)
    (nodata_value : Option Str) (geometry_hint srid_hint application_profile : Option Str)
    (creation_date : Str) : List (Str × Str) :=
  [("iCSV_version".toList, "1.0".toList)]
  ++ (match application_profile with
      | some ap => if ap.isEmpty then [] else [("application_profile".toList, ap)]
      | none => [])
  ++ [("field_delimiter".toList, field_delimiter)]
  ++ [("rows".toList, natToStr rows_count)]
  ++ [("columns".toList, natToStr header.length)]
  ++ [("creation_date".toList, creation_date ++ ['Z'])]
  ++ (match nodata_value with
      | some nv => [("nodata".toList, nv)]
      | none => [])
  ++ (match geometry_hint with
      | some g => if g.isEmpty then [] else [("geometry".toList, g)]
      | none => [])
  ++ (match srid_hint with
      | some sr => if sr.isEmpty then [] else [("srid".toList, sr)]
      | none => [])
  ++ [("generator".toList, "DEVO devo.enrichment".toList)]

theorem map_opt_entry (f : Str × Str → Str) (K : Str) (o : Option Str) :
    (match o with
      | some a => if a.isEmpty then ([] : List (Str × Str)) else [(K, a)]
      | none => []).map f
      = (match o with
         | some a => if a.isEmpty then ([] : List Str) else [f (K, a)]
         | none => []) := by
  cases o with
  | none => rfl
  | some a => exact apply_ite (List.map f) _ _ _

theorem map_opt_entry_plain (f : Str × Str → Str) (K : Str) (o : Option Str) :
    (match o with
      | some a => [(K, a)]
      | none => ([] : List (Str × Str))).map f
      = (match o with
         | some a => [f (K, a)]
         | none => []) := by
  cases o <;> rfl

theorem build_eq_map (fd : Str) (header : List Str) (n : Nat) (nv gh sh ap : Option Str)
    (cd : Str) :
    build_icsv_metadata_section fd header n nv gh sh ap cd
      = (metaEntries fd header n nv gh sh ap cd).map
          (fun p => p.1 ++ " = ".toList ++ p.2) := by
  unfold build_icsv_metadata_section metaEntries
  simp only [List.map_append, map_opt_entry, map_opt_entry_plain]
  cases nv <;> cases gh <;> cases sh <;> cases ap <;> rfl

/-- The fields key–value pairs of `build_fields_section`, in emission
order, with the six joined value strings. -/
def fieldsEntries (header : List Str) (col_infos : List ColInfo) (field_delimiter : Str) :
    List (Str × Str) :=
  [("fields".toList, List.intercalate field_delimiter header),
   ("types".toList, List.intercalate field_delimiter (col_infos.map (·.type))),
   ("min".toList, List.intercalate field_delimiter (col_infos.map (fun c => renderOptCell c.min))),
   ("max".toList, List.intercalate field_delimiter (col_infos.map (fun c => renderOptCell c.max))),
   ("missing_count".toList,
    List.intercalate field_delimiter (col_infos.map (fun c => natToStr c.missing_count))),
   ("description".toList, List.intercalate field_delimiter (col_infos.map (·.description)))]

theorem build_fields_eq_map (header : List Str) (ci : List ColInfo) (fd : Str) :
    build_fields_section header ci fd
      = (fieldsEntries header ci fd).map (fun p => p.1 ++ " = ".toList ++ p.2) := rfl

theorem goodKey_pair {α : Type} (K : Str)
    (hK : pyStrip K = K ∧ K ≠ [] ∧ ¬ '=' ∈ K ∧ ¬ '\n' ∈ K ∧ ¬ '\r' ∈ K) (v : α) :
    pyStrip ((K, v)).1 = ((K, v)).1 ∧ ((K, v)).1 ≠ [] ∧ ¬ '=' ∈ ((K, v)).1
      ∧ ¬ '\n' ∈ ((K, v)).1 ∧ ¬ '\r' ∈ ((K, v)).1 := hK

theorem metaEntries_keys (fd : Str) (header : List Str) (n : Nat) (nv gh sh ap : Option Str)
    (cd : Str) :
    ∀ p ∈ metaEntries fd header n nv gh sh ap cd,
      pyStrip p.1 = p.1 ∧ p.1 ≠ [] ∧ ¬ '=' ∈ p.1 ∧ ¬ '\n' ∈ p.1 ∧ ¬ '\r' ∈ p.1 := by
  intro p hp
  unfold metaEntries at hp
  simp only [List.mem_append, List.mem_singleton] at hp
  rcases hp with ((((((((h | h) | h) | h) | h) | h) | h) | h) | h) | h
  · subst h
    exact goodKey_pair _ (by decide) _
  · cases ap with
    | none => exact absurd h (List.not_mem_nil p)
    | some a =>
      dsimp only at h
      by_cases ha : a.isEmpty = true
      · rw [if_pos ha] at h
        exact absurd h (List.not_mem_nil p)
      · rw [if_neg ha] at h
        cases List.mem_singleton.mp h
        exact goodKey_pair _ (by decide) _
  · subst h
    exact goodKey_pair _ (by decide) _
  · subst h
    exact goodKey_pair _ (by decide) _
  · subst h
    exact goodKey_pair _ (by decide) _
  · subst h
    exact goodKey_pair _ (by decide) _
  · cases nv with
    | none => exact absurd h (List.not_mem_nil p)
    | some a =>
      cases List.mem_singleton.mp h
      exact goodKey_pair _ (by decide) _
  · cases gh with
    | none => exact absurd h (List.not_mem_nil p)
    | some a =>
      dsimp only at h
      by_cases ha : a.isEmpty = true
      · rw [if_pos ha] at h
        exact absurd h (List.not_mem_nil p)
      · rw [if_neg ha] at h
        cases List.mem_singleton.mp h
        exact goodKey_pair _ (by decide) _
  · cases sh with
    | none => exact absurd h (List.not_mem_nil p)
    | some a =>
      dsimp only at h
      by_cases ha : a.isEmpty = true
      · rw [if_pos ha] at h
        exact absurd h (List.not_mem_nil p)
      · rw [if_neg ha] at h
        cases List.mem_singleton.mp h
        exact goodKey_pair _ (by decide) _
  · subst h
    exact goodKey_pair _ (by decide) _

theorem sublist_opt_entry (K : Str) (o : Option Str) :
    List.Sublist ((match o with
      | some a => if a.isEmpty then ([] : List (Str × Str)) else [(K, a)]
      | none => []).map Prod.fst) [K] := by
  cases o with
  | none => exact List.nil_sublist _
  | some a =>
    dsimp only
    by_cases ha : a.isEmpty = true
    · rw [if_pos ha]
      exact List.nil_sublist _
    · rw [if_neg ha]
      exact List.Sublist.refl _

theorem sublist_opt_plain (K : Str) (o : Option Str) :
    List.Sublist ((match o with
      | some a => [(K, a)]
      | none => ([] : List (Str × Str))).map Prod.fst) [K] := by
  cases o with
  | none => exact List.nil_sublist _
  | some a => exact List.Sublist.refl _

theorem metaEntries_keys_nodup (fd : Str) (header : List Str) (n : Nat)
    (nv gh sh ap : Option Str) (cd : Str) :
    ((metaEntries fd header n nv gh sh ap cd).map Prod.fst).Nodup := by
  have hsub : List.Sublist ((metaEntries fd header n nv gh sh ap cd).map Prod.fst)
      (["iCSV_version".toList] ++ ["application_profile".toList] ++ ["field_delimiter".toList]
        ++ ["rows".toList] ++ ["columns".toList] ++ ["creation_date".toList]
        ++ ["nodata".toList] ++ ["geometry".toList] ++ ["srid".toList]
        ++ ["generator".toList]) := by
    unfold metaEntries
    simp only [List.map_append]
    refine List.Sublist.append ?_ (List.Sublist.refl _)
    refine List.Sublist.append ?_ (sublist_opt_entry _ sh)
    refine List.Sublist.append ?_ (sublist_opt_entry _ gh)
    refine List.Sublist.append ?_ (sublist_opt_plain _ nv)
    refine List.Sublist.append ?_ (List.Sublist.refl _)
    refine List.Sublist.append ?_ (List.Sublist.refl _)
    refine List.Sublist.append ?_ (List.Sublist.refl _)
    refine List.Sublist.append ?_ (List.Sublist.refl _)
    exact List.Sublist.append (List.Sublist.refl _) (sublist_opt_entry _ ap)
  have hnod : (["iCSV_version".toList] ++ ["application_profile".toList]
      ++ ["field_delimiter".toList] ++ ["rows".toList] ++ ["columns".toList]
      ++ ["creation_date".toList] ++ ["nodata".toList] ++ ["geometry".toList]
      ++ ["srid".toList] ++ ["generator".toList]).Nodup := by decide
  exact List.Nodup.sublist hsub hnod

theorem fieldsEntries_keys_map (header : List Str) (ci : List ColInfo) (fd : Str) :
    (fieldsEntries header ci fd).map Prod.fst
      = ["fields".toList, "types".toList, "min".toList, "max".toList,
         "missing_count".toList, "description".toList] := rfl

theorem lookup_cons_ne {α : Type} (a k : Str) (v : α) (es : List (Str × α))
    (h : (a == k) = false) : List.lookup a ((k, v) :: es) = List.lookup a es := by
  simp [List.lookup, h]

theorem lookup_cons_self {α : Type} (a : Str) (v : α) (es : List (Str × α)) :
    List.lookup a ((a, v) :: es) = some v := by
  simp [List.lookup]

theorem lookup_append {α : Type} (a : Str) :
    ∀ (l₁ l₂ : List (Str × α)),
      List.lookup a (l₁ ++ l₂) = (List.lookup a l₁).or (List.lookup a l₂) := by
  intro l₁
  induction l₁ with
  | nil =>
    intro l₂
    rfl
  | cons q qs ih =>
    intro l₂
    obtain ⟨k, v⟩ := q
    rw [List.cons_append]
    cases h : (a == k) with
    | false => rw [lookup_cons_ne a k v _ h, lookup_cons_ne a k v _ h, ih]
    | true =>
      have h1 : List.lookup a ((k, v) :: (qs ++ l₂)) = some v := by simp [List.lookup, h]
      have h2 : List.lookup a ((k, v) :: qs) = some v := by simp [List.lookup, h]
      rw [h1, h2]
      rfl

theorem intercalate_nil (sep : Str) : List.intercalate sep [] = [] := by
  simp [List.intercalate]

theorem intercalate_singleton (sep x : Str) : List.intercalate sep [x] = x := by
  simp [List.intercalate]

theorem intercalate_cons_cons (sep x y : Str) (zs : List Str) :
    List.intercalate sep (x :: y :: zs) = x ++ sep ++ List.intercalate sep (y :: zs) := by
  simp [List.intercalate, List.intersperse]

theorem mem_intercalate (d : Char) :
    ∀ (vals : List Str) (c : Char), c ∈ List.intercalate [d] vals →
      c = d ∨ ∃ v ∈ vals, c ∈ v := by
  intro vals
  induction vals with
  | nil =>
    intro c hc
    rw [intercalate_nil] at hc
    exact absurd hc (List.not_mem_nil c)
  | cons v rest ih =>
    intro c hc
    cases rest with
    | nil =>
      rw [intercalate_singleton] at hc
      exact Or.inr ⟨v, List.mem_cons_self _ _, hc⟩
    | cons r rs =>
      rw [intercalate_cons_cons] at hc
      rcases List.mem_append.mp hc with h | h
      · rcases List.mem_append.mp h with h2 | h2
        · exact Or.inr ⟨v, List.mem_cons_self _ _, h2⟩
        · exact Or.inl (List.mem_singleton.mp h2)
      · rcases ih c h with h2 | ⟨w, hw, hcw⟩
        · exact Or.inl h2
        · exact Or.inr ⟨w, List.mem_cons_of_mem _ hw, hcw⟩

theorem head_intercalate (d : Char) (vals : List Str) (c : Char)
    (hc : (List.intercalate [d] vals).head? = some c) :
    c = d ∨ ∃ v ∈ vals, v.head? = some c := by
  cases vals with
  | nil =>
    rw [intercalate_nil] at hc
    simp at hc
  | cons v rest =>
    cases rest with
    | nil =>
      rw [intercalate_singleton] at hc
      exact Or.inr ⟨v, List.mem_cons_self _ _, hc⟩
    | cons r rs =>
      rw [intercalate_cons_cons, List.head?_append, List.head?_append] at hc
      cases hv : v.head? with
      | some k =>
        rw [hv] at hc
        have hkc : some k = some c := hc
        rw [← Option.some.inj hkc]
        exact Or.inr ⟨v, List.mem_cons_self _ _, hv⟩
      | none =>
        rw [hv] at hc
        have hkc : some d = some c := hc
        exact Or.inl (Option.some.inj hkc).symm

theorem getLast_intercalate (d : Char) :
    ∀ (vals : List Str) (c : Char), (List.intercalate [d] vals).getLast? = some c →
      c = d ∨ ∃ v ∈ vals, v.getLast? = some c := by
  intro vals
  induction vals with
  | nil =>
    intro c hc
    rw [intercalate_nil] at hc
    simp at hc
  | cons v rest ih =>
    intro c hc
    cases rest with
    | nil =>
      rw [intercalate_singleton] at hc
      exact Or.inr ⟨v, List.mem_cons_self _ _, hc⟩
    | cons r rs =>
      rw [intercalate_cons_cons, List.getLast?_append] at hc
      cases hX : (List.intercalate [d] (r :: rs)).getLast? with
      | some k =>
        rw [hX] at hc
        have hkc : some k = some c := hc
        rcases ih k hX with h2 | ⟨w, hw, hcw⟩
        · rw [← Option.some.inj hkc]
          exact Or.inl h2
        · rw [← Option.some.inj hkc]
          exact Or.inr ⟨w, List.mem_cons_of_mem _ hw, hcw⟩
      | none =>
        rw [hX] at hc
        rw [List.getLast?_append] at hc
        have hkc : some d = some c := hc
        exact Or.inl (Option.some.inj hkc).symm

theorem pyRstrip_eq_self_of_getLast (s : Str)
    (h : ∀ c, s.getLast? = some c → pyIsSpace c = false) : pyRstrip s = s := by
  unfold pyRstrip
  cases hr : s.reverse with
  | nil =>
    rw [List.reverse_eq_nil_iff.mp hr]
    rfl
  | cons x xs =>
    have hx : s.getLast? = some x := by
      rw [← List.head?_reverse, hr]
      rfl
    rw [List.dropWhile_cons_of_neg (by rw [h x hx]; exact Bool.false_ne_true), ← hr,
      List.reverse_reverse]

theorem strip_intercalate (d : Char) (vals : List Str) (hd : pyIsSpace d = false)
    (hvals : ∀ v ∈ vals, pyStrip v = v) :
    pyStrip (List.intercalate [d] vals) = List.intercalate [d] vals := by
  unfold pyStrip
  have hl : pyLstrip (List.intercalate [d] vals) = List.intercalate [d] vals := by
    refine pyLstrip_eq_self_of_head _ ?_
    intro c hc
    rcases head_intercalate d vals c hc with h | ⟨v, hv, hk⟩
    · rw [h]
      exact hd
    · exact pyStrip_head_not_space v c (by rw [hvals v hv]; exact hk)
  rw [hl]
  refine pyRstrip_eq_self_of_getLast _ ?_
  intro c hc
  rcases getLast_intercalate d vals c hc with h | ⟨v, hv, hk⟩
  · rw [h]
    exact hd
  · exact pyStrip_getLast_not_space v c (by rw [hvals v hv]; exact hk)

theorem fields_value_roundtrip (d : Char) (vals : List Str) (hd : pyIsSpace d = false)
    (hvne : vals ≠ [])
    (hvals : ∀ v ∈ vals, pyStrip v = v ∧ ¬ d ∈ v ∧ ¬ '|' ∈ v) :
    (pySplitSep [d] (List.intercalate ['|']
        (((List.intercalate [d] vals).splitOn '|').map pyStrip))).map pyStrip = vals := by
  have hstrip : ∀ v ∈ vals, pyStrip v = v := fun v hv => (hvals v hv).1
  by_cases hdbar : d = '|'
  · subst hdbar
    have hsplit : (List.intercalate ['|'] vals).splitOn '|' = vals :=
      List.splitOn_intercalate vals '|' (fun l hl => (hvals l hl).2.2) hvne
    rw [hsplit, pyStrip_map_self vals hstrip,
      show pySplitSep ['|'] (List.intercalate ['|'] vals)
        = (List.intercalate ['|'] vals).splitOn '|' from rfl,
      hsplit, pyStrip_map_self vals hstrip]
  · have hbar : ¬ '|' ∈ List.intercalate [d] vals := by
      intro hmem
      rcases mem_intercalate d vals '|' hmem with h | ⟨v, hv, hin⟩
      · exact hdbar h.symm
      · exact (hvals v hv).2.2 hin
    have hsingle : (List.intercalate [d] vals).splitOn '|' = [List.intercalate [d] vals] := by
      have h2 : (List.intercalate ['|'] [List.intercalate [d] vals]).splitOn '|'
          = [List.intercalate [d] vals] :=
        List.splitOn_intercalate [List.intercalate [d] vals] '|'
          (fun l hl => by
            cases List.mem_singleton.mp hl
            exact hbar)
          (List.cons_ne_nil _ _)
      rwa [intercalate_singleton] at h2
    rw [hsingle, List.map_singleton,
      strip_intercalate d vals hd hstrip, intercalate_singleton,
      show pySplitSep [d] (List.intercalate [d] vals)
        = (List.intercalate [d] vals).splitOn d from rfl,
      List.splitOn_intercalate vals d (fun l hl => (hvals l hl).2.1) hvne,
      pyStrip_map_self vals hstrip]

theorem fieldsEntries_keys (header : List Str) (ci : List ColInfo) (fd : Str) :
    ∀ p ∈ fieldsEntries header ci fd,
      pyStrip p.1 = p.1 ∧ p.1 ≠ [] ∧ ¬ '=' ∈ p.1 ∧ ¬ '\n' ∈ p.1 ∧ ¬ '\r' ∈ p.1 := by
  intro p hp
  simp only [fieldsEntries, List.mem_cons, List.mem_singleton, List.not_mem_nil, or_false]
    at hp
  rcases hp with h | h | h | h | h | h <;> subst h <;> exact goodKey_pair _ (by decide) _

theorem make_col_infos_length (dp : FlexParser) (header : List Str) (rows : List (List Str)) :
    (make_col_infos dp header rows).length = header.length := by
  unfold make_col_infos
  rw [List.length_map, List.length_range]

theorem lookup_opt_entry_none (a K : Str) (h : (a == K) = false) (o : Option Str) :
    List.lookup a (match o with
      | some b => if b.isEmpty then ([] : List (Str × Str)) else [(K, b)]
      | none => []) = none := by
  cases o with
  | none => rfl
  | some b =>
    dsimp only
    by_cases hb : b.isEmpty = true
    · rw [if_pos hb]
      rfl
    · rw [if_neg hb, lookup_cons_ne a K b [] h]
      rfl

theorem lookup_opt_plain_none (a K : Str) (h : (a == K) = false) (o : Option Str) :
    List.lookup a (match o with
      | some b => [(K, b)]
      | none => ([] : List (Str × Str))) = none := by
  cases o with
  | none => rfl
  | some b =>
    rw [lookup_cons_ne a K b [] h]
    rfl

theorem lookup_metaEntries_fd (fd : Str) (header : List Str) (n : Nat)
    (nv gh sh ap : Option Str) (cd : Str) :
    List.lookup "field_delimiter".toList (metaEntries fd header n nv gh sh ap cd)
      = some fd := by
  unfold metaEntries
  simp only [lookup_append]
  rw [lookup_cons_ne "field_delimiter".toList "iCSV_version".toList _ _ (by decide),
    lookup_opt_entry_none "field_delimiter".toList "application_profile".toList (by decide) ap,
    lookup_cons_self]
  simp only [List.lookup_nil, Option.none_or, Option.or_some]

theorem lookup_metaEntries_columns (fd : Str) (header : List Str) (n : Nat)
    (nv gh sh ap : Option Str) (cd : Str) :
    List.lookup "columns".toList (metaEntries fd header n nv gh sh ap cd)
      = some (natToStr header.length) := by
  unfold metaEntries
  simp only [lookup_append]
  rw [lookup_cons_ne "columns".toList "iCSV_version".toList _ _ (by decide),
    lookup_opt_entry_none "columns".toList "application_profile".toList (by decide) ap,
    lookup_cons_ne "columns".toList "field_delimiter".toList _ _ (by decide),
    lookup_cons_ne "columns".toList "rows".toList _ _ (by decide),
    lookup_cons_self]
  simp only [List.lookup_nil, Option.none_or, Option.or_some]

/-- One step of Python text-mode line reading with universal newlines:
the character stream breaks at a linefeed, at a carriage return, or at a
carriage-return–linefeed pair (counted as one break), and the flag
records a just-seen carriage return so that a following linefeed is
swallowed.  A final unterminated segment is a line; a terminated stream
yields no trailing empty line. -/
def splitlinesGo : Bool → Str → Str → List Str
  | _, [], cur => if cur.isEmpty then [] else [cur.reverse]
  | skipLf, c :: rest, cur =>
    if c = '\n' then
      if skipLf then splitlinesGo false rest cur
      else cur.reverse :: splitlinesGo false rest []
    else if c = '\r' then cur.reverse :: splitlinesGo true rest []
    else splitlinesGo false rest (c :: cur)

/-- The lines the validator sees when it re-opens a written file in text
mode and strips the one trailing newline from each yielded raw line. -/
def pyReadLines (s : Str) : List Str := splitlinesGo false s []

/-- The raw character stream `write_icsv` from src/enrichment.py puts in
the output file (opened with `newline=""`, so nothing is translated on
write): the signature and section markers and each commented metadata
line are written with a trailing linefeed, the two separator lines are a
bare linefeed, and the data rows are emitted by the csv writer, whose
default line terminator is a carriage-return–linefeed pair. -/
def write_icsv_content (header_meta_lines fields_meta_lines : List Str)
    (data_header : List Str) (rows : List (List Str)) (field_delimiter : Char) : Str :=
  "# iCSV 1.0 UTF-8".toList ++ '\n' ::
    ("# [METADATA]".toList ++ '\n' ::
      (header_meta_lines.flatMap (fun l => '#' :: ' ' :: (l ++ ['\n']))
        ++ '\n' ::
          ("# [FIELDS]".toList ++ '\n' ::
            (fields_meta_lines.flatMap (fun l => '#' :: ' ' :: (l ++ ['\n']))
              ++ '\n' ::
                ("# [DATA]".toList ++ '\n' ::
                  (csvRow field_delimiter data_header ++ '\r' :: '\n' ::
                    rows.flatMap (fun r =>
                      csvRow field_delimiter
                          (if r.length < data_header.length then
                            r ++ List.replicate (data_header.length - r.length) ([] : Str)
                          else r)
                        ++ ['\r', '\n'])))))))

/-- `make_icsv_from_csv` down to the written file content: exactly
`make_icsv_from_csv_lines`, but going through the raw character stream
of `write_icsv` instead of its logical lines. -/
def make_icsv_from_csv_content (dp : FlexParser) (header : List Str) (rows : List (List Str))
    (icsv_delim : Char) (nodata_override : Option Str) (application_profile : Option Str)
    (creation_date : Str) : Str :=
  let nodata_value := resolve_nodata nodata_override rows
  let rows' := rows.map (normalizeRow header.length)
  let col_infos := make_col_infos dp header rows
  let geom := detect_geometry_hint header
  let metadata_lines := build_icsv_metadata_section [icsv_delim] header rows.length
    (some nodata_value) geom.1 geom.2 application_profile creation_date
  let fields_lines := build_fields_section header col_infos [icsv_delim]
  write_icsv_content metadata_lines fields_lines header rows' icsv_delim

theorem splitlinesGo_line : ∀ (l : Str), ¬ '\n' ∈ l → ¬ '\r' ∈ l →
    ∀ (rest cur : Str),
      splitlinesGo false (l ++ '\n' :: rest) cur
        = (cur.reverse ++ l) :: splitlinesGo false rest [] := by
  intro l
  induction l with
  | nil =>
    intro _ _ rest cur
    show splitlinesGo false ('\n' :: rest) cur
      = (cur.reverse ++ []) :: splitlinesGo false rest []
    conv_lhs => unfold splitlinesGo
    rw [if_pos rfl, if_neg Bool.false_ne_true, List.append_nil]
  | cons x xs ih =>
    intro hn hr rest cur
    have hxn : ¬ x = '\n' := fun he => hn (List.mem_cons.mpr (Or.inl he.symm))
    have hxr : ¬ x = '\r' := fun he => hr (List.mem_cons.mpr (Or.inl he.symm))
    show splitlinesGo false (x :: (xs ++ '\n' :: rest)) cur = _
    conv_lhs => unfold splitlinesGo
    rw [if_neg hxn, if_neg hxr,
      ih (fun hc => hn (List.mem_cons_of_mem _ hc)) (fun hc => hr (List.mem_cons_of_mem _ hc))
        rest (x :: cur),
      List.reverse_cons, List.append_assoc]
    rfl

theorem splitlinesGo_nl (rest : Str) :
    splitlinesGo false ('\n' :: rest) [] = [] :: splitlinesGo false rest [] := by
  have h := splitlinesGo_line [] (by decide) (by decide) rest []
  simpa using h

theorem splitlinesGo_hash_line (l : Str) (hn : ¬ '\n' ∈ l) (hr : ¬ '\r' ∈ l)
    (rest cur : Str) :
    splitlinesGo false ('#' :: ' ' :: (l ++ '\n' :: rest)) cur
      = (cur.reverse ++ ('#' :: ' ' :: l)) :: splitlinesGo false rest [] := by
  conv_lhs => unfold splitlinesGo
  rw [if_neg (by decide), if_neg (by decide)]
  conv_lhs => unfold splitlinesGo
  rw [if_neg (by decide), if_neg (by decide),
    splitlinesGo_line l hn hr rest (' ' :: '#' :: cur),
    List.reverse_cons, List.reverse_cons, List.append_assoc, List.append_assoc]
  rfl

theorem splitlines_hash_block (L : List Str) :
    ∀ (rest : Str),
      (∀ l ∈ L, ¬ '\n' ∈ l ∧ ¬ '\r' ∈ l) →
      splitlinesGo false (L.flatMap (fun l => '#' :: ' ' :: (l ++ ['\n'])) ++ rest) []
        = L.map (fun l => '#' :: ' ' :: l) ++ splitlinesGo false rest [] := by
  induction L with
  | nil =>
    intro rest _
    rw [List.flatMap_nil, List.nil_append, List.map_nil, List.nil_append]
  | cons l ls ih =>
    intro rest hL
    rw [List.flatMap_cons, List.append_assoc]
    show splitlinesGo false ('#' :: ' ' :: ((l ++ ['\n'])
        ++ (ls.flatMap (fun l => '#' :: ' ' :: (l ++ ['\n'])) ++ rest))) [] = _
    rw [List.append_assoc, List.singleton_append,
      splitlinesGo_hash_line l (hL l (List.mem_cons_self _ _)).1
        (hL l (List.mem_cons_self _ _)).2 _ [],
      ih _ (fun x hx => hL x (List.mem_cons_of_mem _ hx)), List.map_cons]
    rfl

theorem pyReadLines_write_icsv_content (hm fm : List Str) (dh : List Str)
    (rows : List (List Str)) (d : Char)
    (hhm : ∀ l ∈ hm, ¬ '\n' ∈ l ∧ ¬ '\r' ∈ l)
    (hfm : ∀ l ∈ fm, ¬ '\n' ∈ l ∧ ¬ '\r' ∈ l) :
    pyReadLines (write_icsv_content hm fm dh rows d)
      = "# iCSV 1.0 UTF-8".toList :: "# [METADATA]".toList ::
          (hm.map (fun l => '#' :: ' ' :: l)
            ++ [] :: "# [FIELDS]".toList ::
              (fm.map (fun l => '#' :: ' ' :: l)
                ++ [] :: "# [DATA]".toList ::
                  pyReadLines (csvRow d dh ++ '\r' :: '\n' ::
                    rows.flatMap (fun r =>
                      csvRow d (if r.length < dh.length then
                          r ++ List.replicate (dh.length - r.length) ([] : Str)
                        else r) ++ ['\r', '\n'])))) := by
  unfold pyReadLines write_icsv_content
  rw [splitlinesGo_line "# iCSV 1.0 UTF-8".toList (by decide) (by decide),
    splitlinesGo_line "# [METADATA]".toList (by decide) (by decide),
    splitlines_hash_block hm _ hhm,
    splitlinesGo_nl,
    splitlinesGo_line "# [FIELDS]".toList (by decide) (by decide),
    splitlines_hash_block fm _ hfm,
    splitlinesGo_nl,
    splitlinesGo_line "# [DATA]".toList (by decide) (by decide)]
  simp only [List.reverse_nil, List.nil_append]

theorem go_make_icsv (dp : FlexParser) (header : List Str) (rows : List (List Str))
    (icsv_delim : Char) (nodata_override application_profile : Option Str)
    (creation_date : Str)
    (hmetaV : ∀ p ∈ metaEntries [icsv_delim] header rows.length
        (some (resolve_nodata nodata_override rows)) (detect_geometry_hint header).1
        (detect_geometry_hint header).2 application_profile creation_date,
      pyStrip p.2 = p.2 ∧ ¬ '\n' ∈ p.2 ∧ ¬ '\r' ∈ p.2)
    (hfieldsV : ∀ p ∈ fieldsEntries header (make_col_infos dp header rows) [icsv_delim],
      pyStrip p.2 = p.2 ∧ ¬ '\n' ∈ p.2 ∧ ¬ '\r' ∈ p.2) :
    parse_icsv_go (pyReadLines (make_icsv_from_csv_content dp header rows icsv_delim
        nodata_override application_profile creation_date)) Sec.noSec [] []
      = (metaEntries [icsv_delim] header rows.length
          (some (resolve_nodata nodata_override rows)) (detect_geometry_hint header).1
          (detect_geometry_hint header).2 application_profile creation_date,
         (fieldsEntries header (make_col_infos dp header rows) [icsv_delim]).map
           (fun p => (p.1, (p.2.splitOn '|').map pyStrip))) := by
  have hgoodM : ∀ p ∈ metaEntries [icsv_delim] header rows.length
      (some (resolve_nodata nodata_override rows)) (detect_geometry_hint header).1
      (detect_geometry_hint header).2 application_profile creation_date,
      pyStrip p.1 = p.1 ∧ p.1 ≠ [] ∧ ¬ '=' ∈ p.1 ∧ pyStrip p.2 = p.2 := by
    intro p hp
    obtain ⟨h1, h2, h3, _, _⟩ := metaEntries_keys _ _ _ _ _ _ _ _ p hp
    exact ⟨h1, h2, h3, (hmetaV p hp).1⟩
  have hgoodF : ∀ p ∈ fieldsEntries header (make_col_infos dp header rows) [icsv_delim],
      pyStrip p.1 = p.1 ∧ p.1 ≠ [] ∧ ¬ '=' ∈ p.1 ∧ pyStrip p.2 = p.2 := by
    intro p hp
    obtain ⟨h1, h2, h3, _, _⟩ := fieldsEntries_keys _ _ _ p hp
    exact ⟨h1, h2, h3, (hfieldsV p hp).1⟩
  have hhm : ∀ l ∈ build_icsv_metadata_section [icsv_delim] header rows.length
      (some (resolve_nodata nodata_override rows)) (detect_geometry_hint header).1
      (detect_geometry_hint header).2 application_profile creation_date,
      ¬ '\n' ∈ l ∧ ¬ '\r' ∈ l := by
    intro l hl
    rw [build_eq_map] at hl
    obtain ⟨p, hp, rfl⟩ := List.mem_map.mp hl
    obtain ⟨_, _, _, hk4, hk5⟩ := metaEntries_keys _ _ _ _ _ _ _ _ p hp
    obtain ⟨_, hv2, hv3⟩ := hmetaV p hp
    constructor
    · intro hc
      rcases List.mem_append.mp hc with h | h
      · rcases List.mem_append.mp h with h2 | h2
        · exact hk4 h2
        · exact absurd h2 (by decide)
      · exact hv2 h
    · intro hc
      rcases List.mem_append.mp hc with h | h
      · rcases List.mem_append.mp h with h2 | h2
        · exact hk5 h2
        · exact absurd h2 (by decide)
      · exact hv3 h
  have hfm : ∀ l ∈ build_fields_section header (make_col_infos dp header rows) [icsv_delim],
      ¬ '\n' ∈ l ∧ ¬ '\r' ∈ l := by
    intro l hl
    rw [build_fields_eq_map] at hl
    obtain ⟨p, hp, rfl⟩ := List.mem_map.mp hl
    obtain ⟨_, _, _, hk4, hk5⟩ := fieldsEntries_keys _ _ _ p hp
    obtain ⟨_, hv2, hv3⟩ := hfieldsV p hp
    constructor
    · intro hc
      rcases List.mem_append.mp hc with h | h
      · rcases List.mem_append.mp h with h2 | h2
        · exact hk4 h2
        · exact absurd h2 (by decide)
      · exact hv2 h
    · intro hc
      rcases List.mem_append.mp hc with h | h
      · rcases List.mem_append.mp h with h2 | h2
        · exact hk5 h2
        · exact absurd h2 (by decide)
      · exact hv3 h
  have hML : (build_icsv_metadata_section [icsv_delim] header rows.length
        (some (resolve_nodata nodata_override rows)) (detect_geometry_hint header).1
        (detect_geometry_hint header).2 application_profile creation_date).map
          (fun l => '#' :: ' ' :: l)
      = (metaEntries [icsv_delim] header rows.length
          (some (resolve_nodata nodata_override rows)) (detect_geometry_hint header).1
          (detect_geometry_hint header).2 application_profile creation_date).map
          (fun p => '#' :: ' ' :: (p.1 ++ " = ".toList ++ p.2)) := by
    rw [build_eq_map, List.map_map]
    rfl
  have hFL : (build_fields_section header (make_col_infos dp header rows) [icsv_delim]).map
        (fun l => '#' :: ' ' :: l)
      = (fieldsEntries header (make_col_infos dp header rows) [icsv_delim]).map
          (fun p => '#' :: ' ' :: (p.1 ++ " = ".toList ++ p.2)) := by
    rw [build_fields_eq_map, List.map_map]
    rfl
  have hMD : (metaEntries [icsv_delim] header rows.length
        (some (resolve_nodata nodata_override rows)) (detect_geometry_hint header).1
        (detect_geometry_hint header).2 application_profile creation_date).foldl
          (fun acc p => dictInsert p.1 p.2 acc) []
      = metaEntries [icsv_delim] header rows.length
          (some (resolve_nodata nodata_override rows)) (detect_geometry_hint header).1
          (detect_geometry_hint header).2 application_profile creation_date := by
    have h1 := foldl_dictInsert_fresh (metaEntries [icsv_delim] header rows.length
        (some (resolve_nodata nodata_override rows)) (detect_geometry_hint header).1
        (detect_geometry_hint header).2 application_profile creation_date) []
      (metaEntries_keys_nodup _ _ _ _ _ _ _ _)
      (fun p _ q hq => absurd hq (List.not_mem_nil q))
    rwa [List.nil_append] at h1
  have hFM : (fieldsEntries header (make_col_infos dp header rows) [icsv_delim]).foldl
        (fun acc p => dictInsert p.1 ((p.2.splitOn '|').map pyStrip) acc) []
      = (fieldsEntries header (make_col_infos dp header rows) [icsv_delim]).map
          (fun p => (p.1, (p.2.splitOn '|').map pyStrip)) := by
    have h0 : (fieldsEntries header (make_col_infos dp header rows) [icsv_delim]).foldl
          (fun acc p => dictInsert p.1 ((p.2.splitOn '|').map pyStrip) acc) []
        = ((fieldsEntries header (make_col_infos dp header rows) [icsv_delim]).map
            (fun p => (p.1, (p.2.splitOn '|').map pyStrip))).foldl
            (fun acc q => dictInsert q.1 q.2 acc) [] :=
      (List.foldl_map (fun (p : Str × Str) => (p.1, (p.2.splitOn '|').map pyStrip))
        (fun acc (q : Str × List Str) => dictInsert q.1 q.2 acc)
        (fieldsEntries header (make_col_infos dp header rows) [icsv_delim]) []).symm
    have hnd : (((fieldsEntries header (make_col_infos dp header rows) [icsv_delim]).map
        (fun p => (p.1, (p.2.splitOn '|').map pyStrip))).map Prod.fst).Nodup := by
      have he : ((fieldsEntries header (make_col_infos dp header rows) [icsv_delim]).map
          (fun p => (p.1, (p.2.splitOn '|').map pyStrip))).map Prod.fst
          = ["fields".toList, "types".toList, "min".toList, "max".toList,
             "missing_count".toList, "description".toList] := rfl
      rw [he]
      decide
    have h1 := foldl_dictInsert_fresh ((fieldsEntries header (make_col_infos dp header rows)
        [icsv_delim]).map (fun p => (p.1, (p.2.splitOn '|').map pyStrip))) [] hnd
      (fun p _ q hq => absurd hq (List.not_mem_nil q))
    rw [h0, h1, List.nil_append]
  unfold make_icsv_from_csv_content
  dsimp only
  rw [pyReadLines_write_icsv_content _ _ _ _ _ hhm hfm,
    go_intro_line, go_meta_marker, hML,
    go_meta_block _ _ _ _ hgoodM,
    go_blank, go_fields_marker, hFL,
    go_fields_block _ _ _ _ hgoodF,
    go_blank, go_data_marker, hMD, hFM]

theorem parse_make_icsv_full (dp : FlexParser) (header : List Str) (rows : List (List Str))
    (icsv_delim : Char) (nodata_override application_profile : Option Str)
    (creation_date : Str)
    (hd : pyIsSpace icsv_delim = false)
    (hne : header ≠ [])
    (hmetaV : ∀ p ∈ metaEntries [icsv_delim] header rows.length
        (some (resolve_nodata nodata_override rows)) (detect_geometry_hint header).1
        (detect_geometry_hint header).2 application_profile creation_date,
      pyStrip p.2 = p.2 ∧ ¬ '\n' ∈ p.2 ∧ ¬ '\r' ∈ p.2)
    (hval6 : ∀ vs ∈ [header,
        (make_col_infos dp header rows).map (fun c => c.type),
        (make_col_infos dp header rows).map (fun c => renderOptCell c.min),
        (make_col_infos dp header rows).map (fun c => renderOptCell c.max),
        (make_col_infos dp header rows).map (fun c => natToStr c.missing_count),
        (make_col_infos dp header rows).map (fun c => c.description)],
      ∀ v ∈ vs, pyStrip v = v ∧ ¬ icsv_delim ∈ v ∧ ¬ '|' ∈ v ∧ ¬ '\n' ∈ v ∧ ¬ '\r' ∈ v) :
    parse_icsv_metadata (pyReadLines (make_icsv_from_csv_content dp header rows icsv_delim
        nodata_override application_profile creation_date))
      = (metaEntries [icsv_delim] header rows.length
          (some (resolve_nodata nodata_override rows)) (detect_geometry_hint header).1
          (detect_geometry_hint header).2 application_profile creation_date,
         [("fields".toList, header),
          ("types".toList, (make_col_infos dp header rows).map (fun c => c.type)),
          ("min".toList, (make_col_infos dp header rows).map (fun c => renderOptCell c.min)),
          ("max".toList, (make_col_infos dp header rows).map (fun c => renderOptCell c.max)),
          ("missing_count".toList,
           (make_col_infos dp header rows).map (fun c => natToStr c.missing_count)),
          ("description".toList,
           (make_col_infos dp header rows).map (fun c => c.description))]) := by
  have hdn : ¬ icsv_delim = '\n' := fun he => by
    rw [he] at hd
    exact absurd hd (by decide)
  have hdr2 : ¬ icsv_delim = '\r' := fun he => by
    rw [he] at hd
    exact absurd hd (by decide)
  have hfieldsV : ∀ p ∈ fieldsEntries header (make_col_infos dp header rows) [icsv_delim],
      pyStrip p.2 = p.2 ∧ ¬ '\n' ∈ p.2 ∧ ¬ '\r' ∈ p.2 := by
    intro p hp
    simp only [fieldsEntries, List.mem_cons, List.mem_singleton, List.not_mem_nil, or_false]
      at hp
    rcases hp with h | h | h | h | h | h <;> subst h <;>
      refine ⟨strip_intercalate _ _ hd (fun v hv => (hval6 _ (by simp) v hv).1), ?_, ?_⟩ <;>
      · intro hc
        rcases mem_intercalate icsv_delim _ _ hc with h2 | ⟨v, hv, hin⟩
        · first
            | exact hdn h2.symm
            | exact hdr2 h2.symm
        · rcases (hval6 _ (by simp) v hv).2.2.2 with ⟨hv4, hv5⟩
          first
            | exact hv4 hin
            | exact hv5 hin
  have hcisne : ∀ (f : ColInfo → Str), (make_col_infos dp header rows).map f ≠ [] := by
    intro f h
    have h2 := congrArg List.length h
    rw [List.length_map, make_col_infos_length] at h2
    exact hne (List.length_eq_zero.mp h2)
  unfold parse_icsv_metadata
  rw [go_make_icsv dp header rows icsv_delim nodata_override application_profile
    creation_date hmetaV hfieldsV]
  dsimp only
  rw [lookup_metaEntries_fd]
  dsimp only
  simp only [fieldsEntries, List.map_cons, List.map_nil]
  rw [fields_value_roundtrip icsv_delim header hd hne
      (fun v hv => ⟨(hval6 _ (by simp) v hv).1, (hval6 _ (by simp) v hv).2.1,
        (hval6 _ (by simp) v hv).2.2.1⟩),
    fields_value_roundtrip icsv_delim ((make_col_infos dp header rows).map (fun c => c.type))
      hd (hcisne _) (fun v hv => ⟨(hval6 _ (by simp) v hv).1, (hval6 _ (by simp) v hv).2.1,
        (hval6 _ (by simp) v hv).2.2.1⟩),
    fields_value_roundtrip icsv_delim
      ((make_col_infos dp header rows).map (fun c => renderOptCell c.min))
      hd (hcisne _) (fun v hv => ⟨(hval6 _ (by simp) v hv).1, (hval6 _ (by simp) v hv).2.1,
        (hval6 _ (by simp) v hv).2.2.1⟩),
    fields_value_roundtrip icsv_delim
      ((make_col_infos dp header rows).map (fun c => renderOptCell c.max))
      hd (hcisne _) (fun v hv => ⟨(hval6 _ (by simp) v hv).1, (hval6 _ (by simp) v hv).2.1,
        (hval6 _ (by simp) v hv).2.2.1⟩),
    fields_value_roundtrip icsv_delim
      ((make_col_infos dp header rows).map (fun c => natToStr c.missing_count))
      hd (hcisne _) (fun v hv => ⟨(hval6 _ (by simp) v hv).1, (hval6 _ (by simp) v hv).2.1,
        (hval6 _ (by simp) v hv).2.2.1⟩),
    fields_value_roundtrip icsv_delim
      ((make_col_infos dp header rows).map (fun c => c.description))
      hd (hcisne _) (fun v hv => ⟨(hval6 _ (by simp) v hv).1, (hval6 _ (by simp) v hv).2.1,
        (hval6 _ (by simp) v hv).2.2.1⟩)]

/-- C2 (amended): building an iCSV from a CSV, writing it to a file as
`write_icsv` does (raw character stream, one trailing newline per line),
and re-reading and parsing that file with universal-newline text-mode
line splitting recovers a `columns` value rendering the original header
length, and six parsed FIELDS lists of exactly that length — provided
the header is non-empty, every joined value (header names, inferred
types, rendered min/max, missing counts, descriptions) is
whitespace-stripped and free of the output delimiter, the bar, and the
two newline characters, the output delimiter is not whitespace, and
every metadata value is stripped and newline-free.  Without these
conditions the claim fails: a header name containing the output
delimiter splits into extra fields, and a header name containing a
linefeed splits the written fields line into two physical lines. -/
theorem icsv_fields_roundtrip (dp : FlexParser) (header : List Str) (rows : List (List Str))
    (icsv_delim : Char) (nodata_override application_profile : Option Str)
    (creation_date : Str)
    (hd : pyIsSpace icsv_delim = false)
    (hne : header ≠ [])
    (hmetaV : ∀ p ∈ metaEntries [icsv_delim] header rows.length
        (some (resolve_nodata nodata_override rows)) (detect_geometry_hint header).1
        (detect_geometry_hint header).2 application_profile creation_date,
      pyStrip p.2 = p.2 ∧ ¬ '\n' ∈ p.2 ∧ ¬ '\r' ∈ p.2)
    (hval6 : ∀ vs ∈ [header,
        (make_col_infos dp header rows).map (fun c => c.type),
        (make_col_infos dp header rows).map (fun c => renderOptCell c.min),
        (make_col_infos dp header rows).map (fun c => renderOptCell c.max),
        (make_col_infos dp header rows).map (fun c => natToStr c.missing_count),
        (make_col_infos dp header rows).map (fun c => c.description)],
      ∀ v ∈ vs, pyStrip v = v ∧ ¬ icsv_delim ∈ v ∧ ¬ '|' ∈ v ∧ ¬ '\n' ∈ v ∧ ¬ '\r' ∈ v) :
    List.lookup "columns".toList
        (parse_icsv_metadata (pyReadLines (make_icsv_from_csv_content dp header rows
          icsv_delim nodata_override application_profile creation_date))).1
      = some (natToStr header.length) ∧
    ∀ p ∈ (parse_icsv_metadata (pyReadLines (make_icsv_from_csv_content dp header rows
        icsv_delim nodata_override application_profile creation_date))).2,
      p.2.length = header.length := by
  rw [parse_make_icsv_full dp header rows icsv_delim nodata_override application_profile
    creation_date hd hne hmetaV hval6]
  dsimp only
  constructor
  · exact lookup_metaEntries_columns _ _ _ _ _ _ _ _
  · intro p hp
    simp only [List.mem_cons, List.mem_singleton, List.not_mem_nil, or_false] at hp
    rcases hp with h | h | h | h | h | h <;> subst h <;>
      simp [List.length_map, make_col_infos_length]

theorem icsv_fields_roundtrip_witness :
    List.lookup "columns".toList
        (parse_icsv_metadata (pyReadLines (make_icsv_from_csv_content none ["a".toList]
          [["1".toList]] '|' none none "t".toList))).1
      = some (natToStr 1) ∧
    ∀ p ∈ (parse_icsv_metadata (pyReadLines (make_icsv_from_csv_content none ["a".toList]
        [["1".toList]] '|' none none "t".toList))).2,
      p.2.length = 1 :=
  icsv_fields_roundtrip none ["a".toList] [["1".toList]] '|' none none "t".toList
    (by decide) (by decide) (by decide) (by decide)

/-- C2 counterexample: a header name carrying the output delimiter makes
the parsed `fields` list longer than `columns` records, and a header
name carrying a linefeed splits the written fields line into two
physical lines, leaving the parsed `fields` list shorter than
`columns`. -/
theorem icsv_fields_roundtrip_counterexample :
    (List.lookup "columns".toList
        (parse_icsv_metadata (pyReadLines (make_icsv_from_csv_content none ["a|b".toList]
          [["1".toList]] '|' none none "t".toList))).1
      = some "1".toList ∧
     (List.lookup "fields".toList
        (parse_icsv_metadata (pyReadLines (make_icsv_from_csv_content none ["a|b".toList]
          [["1".toList]] '|' none none "t".toList))).2).map List.length
      = some 2) ∧
    (List.lookup "columns".toList
        (parse_icsv_metadata (pyReadLines (make_icsv_from_csv_content none
          ["a\nb".toList, "c".toList] [["1".toList, "2".toList]] ';' none none
          "t".toList))).1
      = some "2".toList ∧
     (List.lookup "fields".toList
        (parse_icsv_metadata (pyReadLines (make_icsv_from_csv_content none
          ["a\nb".toList, "c".toList] [["1".toList, "2".toList]] ';' none none
          "t".toList))).2).map List.length
      = some 1) := by
  decide

end DEVO
